import Mathlib

/-!
Verification development for the Tinification repository.

Part 1 models the shift-equivalence engine of `src/ParseXML/1.py`
(`res_equal`, `add_delta`, `msgs_to_multiset`, `shift_equivalent`,
`merge_shift_equivalent`).  Part 2 models the time-edge accumulator of
`src/time_accumulator.py` (`parse_aut`, `_is_time`, `reachable_from`,
`accumulate_time_edges`).

Python scalar values flowing through the comparison code are either
`None`, an `int`, or a `str`; they are embedded as the inductive `PyVal`.
Fallible Python code (code that can raise `TypeError` / `KeyError` /
`ValueError` / `IndexError`) is embedded in `Except String`, the error
string naming the exception class.
-/

namespace Tinification

/-- Embedding of the Python scalar values that appear in the parsed
actor-trace records: `None`, `int` values, and `str` values
(for example the literal string "infinity" that `to_int` leaves alone). -/
inductive PyVal where
  | none : PyVal
  | int : Int → PyVal
  | str : String → PyVal
deriving DecidableEq

/-- One parsed message record, as built by `parse_msg` in `1.py`:
sender id, receiver id, body text, arrival and deadline
(the latter two already passed through `to_int`, hence `PyVal`). -/
structure Msg where
  sid : String
  rid : String
  body : String
  ar : PyVal
  dl : PyVal
deriving DecidableEq

/-- One per-rebec record of a state, as built in step 2 of `1.py`:
program counter, massaged `res`, the local-variable dictionary
(its items in insertion order), the stored bag size and the message list. -/
structure ActorRec where
  pc : PyVal
  res : PyVal
  vars : List (String × String)
  bag_size : Nat
  messages : List Msg
deriving DecidableEq

/-- One entry of `shift_state`: the global clock `now` and the rebec
dictionary (items in insertion order).  The source computes `now` with
`to_int`; the comparison code does integer arithmetic on it, so it is
embedded as `Int`. -/
structure StateRec where
  now : Int
  rebecs : List (String × ActorRec)
deriving DecidableEq

/-- Lookup in a Python dict embedded as an insertion-ordered association
list (first match; dict keys are unique). -/
def dlookup {α : Type} (l : List (String × α)) (k : String) : Option α :=
  (l.find? (fun p => p.1 = k)).map (fun p => p.2)

/-- Python dict equality for the `vars` maps: same key set and the same
value at every key (insertion order is irrelevant to `==` on dicts). -/
def pyDictEq (a b : List (String × String)) : Bool :=
  a.all (fun p => dlookup b p.1 = dlookup a p.1) &&
  b.all (fun p => dlookup a p.1 = dlookup b p.1)

/-- Embedding of `add_delta(value, delta)` from `1.py`:
`None` and the string "infinity" pass through unchanged, an `int` is
shifted, and any other `str` raises `TypeError` (Python `str + int`). -/
def add_delta (value : PyVal) (delta : Int) : Except String PyVal :=
  if value = PyVal.none ∨ value = PyVal.str "infinity" then .ok value
  else
    match value with
    | .int n => .ok (.int (n + delta))
    | .str _ => .error "TypeError"
    | .none => .ok .none

/-- The `Counter` key used by `msgs_to_multiset`:
`(sid, rid, body, shifted arrival, shifted deadline)`. -/
abbrev MsgKey := String × String × String × PyVal × PyVal

/-- The generator `(key(m) for m in msgs)` inside `msgs_to_multiset`:
the key list in message order, propagating the first `TypeError` raised
by `add_delta` (per message: arrival first, then deadline). -/
def msgKeys : List Msg → Int → Except String (List MsgKey)
  | [], _ => .ok []
  | m :: rest, delta =>
    match add_delta m.ar delta with
    | .error e => .error e
    | .ok a =>
      match add_delta m.dl delta with
      | .error e => .error e
      | .ok d =>
        match msgKeys rest delta with
        | .error e => .error e
        | .ok l => .ok ((m.sid, m.rid, m.body, a, d) :: l)

/-- Embedding of `msgs_to_multiset(msgs, delta)` from `1.py`: the bag
(`Counter`) of keys `(sid, rid, body, ar + delta, dl + delta)` over the
message list, propagating any `TypeError` raised by `add_delta`. -/
def msgs_to_multiset (msgs : List Msg) (delta : Int) :
    Except String (Multiset MsgKey) :=
  (msgKeys msgs delta).map (fun l => (l : Multiset MsgKey))

/-- Embedding of `res_equal(ra, rb, delta)` from `1.py`.  Only `None` is
treated as the absent case; otherwise the code evaluates
`ra == rb + delta`, which raises `TypeError` whenever `rb` is a string
(such as "infinity") and yields `False` when `ra` is a string and
`rb + delta` an integer. -/
def res_equal (ra rb : PyVal) (delta : Int) : Except String Bool :=
  if ra = PyVal.none ∧ rb = PyVal.none then .ok true
  else if ra = PyVal.none ∨ rb = PyVal.none then .ok false
  else
    match rb with
    | .int n => .ok (decide (ra = PyVal.int (n + delta)))
    | .str _ => .error "TypeError"
    | .none => .ok false

/-- Sequencing of the `res_equal` test inside the per-rebec loop: a
raised `TypeError` propagates, a `False` result short-circuits (the bags
are never computed in Python then), and on `True` the bag comparison
runs. -/
def resStep : Except String Bool → Except String Bool → Except String Bool
  | .error e, _ => .error e
  | .ok false, _ => .ok false
  | .ok true, k => k

/-- The bag comparison `bagA == bagB_shifted`: `bagA` is computed first,
so its `TypeError` takes precedence. -/
def bagStep : Except String (Multiset MsgKey) → Except String (Multiset MsgKey) →
    Except String Bool
  | .error e, _ => .error e
  | .ok _, .error e => .error e
  | .ok a, .ok b => .ok (decide (a = b))

/-- The per-rebec checks of `shift_equivalent`, in source order: the
`vars` dicts, the `pc`, the stored `bag_size`, then `res_equal`, then the
bag comparison `msgs_to_multiset(RA.messages) == msgs_to_multiset(RB.messages, delta)`. -/
def chkActor (delta : Int) (RA RB : ActorRec) : Except String Bool :=
  if ¬ pyDictEq RA.vars RB.vars then .ok false
  else if RA.pc ≠ RB.pc then .ok false
  else if RA.bag_size ≠ RB.bag_size then .ok false
  else
    resStep (res_equal RA.res RB.res delta)
      (bagStep (msgs_to_multiset RA.messages 0) (msgs_to_multiset RB.messages delta))

/-- Python `set(rebecsA) == set(rebecsB)` on the rebec dictionaries:
equality of the key sets. -/
def sameKeySet (a b : List (String × ActorRec)) : Bool :=
  (a.map (fun p => p.1)).all (fun k => (b.map (fun p => p.1)).contains k) &&
  (b.map (fun p => p.1)).all (fun k => (a.map (fun p => p.1)).contains k)

/-- Short-circuiting of one rebec's verdict against the remainder of the
loop: an exception propagates, a failed check returns `(False, None)`
at once, a passed check continues with the rest. -/
def afterChk : Except String Bool → Except String (Bool × Option Int) →
    Except String (Bool × Option Int)
  | .error e, _ => .error e
  | .ok false, _ => .ok (false, none)
  | .ok true, k => k

/-- The `for r in rebecsA` loop of `shift_equivalent`: iterate the
entries of A's rebec dict, look each name up in B's dict (a missing name
would be a Python `KeyError`, unreachable after the key-set test), and
short-circuit with `(False, None)` on the first failing check.  On
success the loop falls through to `return True, delta`. -/
def checkRebecs (B : List (String × ActorRec)) (delta : Int) :
    List (String × ActorRec) → Except String (Bool × Option Int)
  | [] => .ok (true, some delta)
  | (r, RA) :: rest =>
    (dlookup B r).elim (.error "KeyError") (fun RB =>
      afterChk (chkActor delta RA RB) (checkRebecs B delta rest))

/-- The body of `shift_equivalent` once `delta = A.now - B.now` is known
to be nonnegative: the (tautological) clock contract, the key-set test,
then the per-rebec loop. -/
def shift_equiv_core (A B : StateRec) : Except String (Bool × Option Int) :=
  let delta := A.now - B.now
  if A.now ≠ B.now + delta then .ok (false, none)
  else if ¬ sameKeySet A.rebecs B.rebecs then .ok (false, none)
  else checkRebecs B.rebecs delta A.rebecs

/-- Embedding of `shift_equivalent(stateA, stateB)` from `1.py`.  When
`A.now - B.now < 0` the source calls itself once with the operands
swapped (the recursion depth is at most one, since the swapped delta is
positive); this wrapper performs that single swap. -/
def shift_equivalent (A B : StateRec) : Except String (Bool × Option Int) :=
  if A.now - B.now < 0 then shift_equiv_core B A else shift_equiv_core A B

/-- A scalar on which `add_delta` cannot raise: `None`, an integer, or
the literal string "infinity". -/
def cleanVal : PyVal → Bool
  | .str s => s = "infinity"
  | _ => true

/-- A `res` value on which `res_equal` cannot raise when both sides carry
it: `None` or an integer (any string, including "infinity", makes
`rb + delta` raise `TypeError`). -/
def cleanRes : PyVal → Bool
  | .str _ => false
  | _ => true

/-- States whose resources are absent or integers and whose message
arrival/deadline fields are `None`, integers, or "infinity" — exactly
the states on which the comparison helpers cannot raise `TypeError`. -/
def cleanState (A : StateRec) : Bool :=
  A.rebecs.all (fun p =>
    cleanRes p.2.res && p.2.messages.all (fun m => cleanVal m.ar && cleanVal m.dl))

end Tinification

namespace Tinification

instance {ε α : Type} [DecidableEq ε] [DecidableEq α] : DecidableEq (Except ε α) := fun a b =>
  match a, b with
  | .ok x, .ok y =>
    if h : x = y then .isTrue (by rw [h]) else .isFalse (by simp [h])
  | .error e, .error f =>
    if h : e = f then .isTrue (by rw [h]) else .isFalse (by simp [h])
  | .ok _, .error _ => .isFalse (by simp)
  | .error _, .ok _ => .isFalse (by simp)

section ShiftEquivalenceLemmas

lemma dlookup_mem {α : Type} {l : List (String × α)} {k : String} {x : α}
    (h : dlookup l k = some x) : (k, x) ∈ l := by
  unfold dlookup at h
  cases hf : l.find? (fun p => p.1 = k) with
  | none => rw [hf] at h; simp at h
  | some p =>
    rw [hf] at h
    simp at h
    have hp := List.find?_some hf
    have hmem := List.mem_of_find?_eq_some hf
    simp at hp
    rw [← h, ← hp]
    exact hmem

lemma dlookup_of_mem_nodup {α : Type} {l : List (String × α)}
    (hnd : (l.map Prod.fst).Nodup) {k : String} {x : α}
    (h : (k, x) ∈ l) : dlookup l k = some x := by
  induction l with
  | nil => simp at h
  | cons p rest ih =>
    simp only [List.map_cons, List.nodup_cons] at hnd
    rcases List.mem_cons.mp h with he | hm
    · subst he
      unfold dlookup
      rw [List.find?_cons_of_pos _ (by simp)]
      rfl
    · have hkr : k ∈ rest.map Prod.fst := List.mem_map_of_mem Prod.fst hm
      have hne : p.1 ≠ k := fun he => hnd.1 (he ▸ hkr)
      have hrec := ih hnd.2 hm
      unfold dlookup at hrec ⊢
      rw [List.find?_cons_of_neg _ (by simp [hne])]
      exact hrec

lemma mem_keys_of_dlookup {α : Type} {l : List (String × α)} {k : String} {x : α}
    (h : dlookup l k = some x) : k ∈ l.map Prod.fst := by
  have := dlookup_mem h
  exact List.mem_map_of_mem Prod.fst this

lemma exists_dlookup_of_mem_keys {α : Type} {l : List (String × α)} {k : String}
    (h : k ∈ l.map Prod.fst) : ∃ x, dlookup l k = some x := by
  induction l with
  | nil => simp at h
  | cons p rest ih =>
    by_cases hq : p.1 = k
    · refine ⟨p.2, ?_⟩
      unfold dlookup
      rw [List.find?_cons_of_pos _ (by simp [hq])]
      rfl
    · simp only [List.map_cons, List.mem_cons] at h
      rcases h with h | h
      · exact absurd h.symm hq
      · rcases ih h with ⟨x, hx⟩
        refine ⟨x, ?_⟩
        unfold dlookup at hx ⊢
        rw [List.find?_cons_of_neg _ (by simp [hq])]
        exact hx

lemma pyDictEq_symm_true {a b : List (String × String)}
    (h : pyDictEq a b = true) : pyDictEq b a = true := by
  unfold pyDictEq at h ⊢
  rw [Bool.and_comm]
  exact h

lemma pyDictEq_refl (a : List (String × String)) : pyDictEq a a = true := by
  unfold pyDictEq
  simp

lemma sameKeySet_symm_true {a b : List (String × ActorRec)}
    (h : sameKeySet a b = true) : sameKeySet b a = true := by
  unfold sameKeySet at h ⊢
  rw [Bool.and_comm]
  exact h

lemma sameKeySet_refl (a : List (String × ActorRec)) : sameKeySet a a = true := by
  unfold sameKeySet
  simp

lemma sameKeySet_mem {a b : List (String × ActorRec)}
    (h : sameKeySet a b = true) {k : String}
    (hk : k ∈ a.map Prod.fst) : k ∈ b.map Prod.fst := by
  unfold sameKeySet at h
  rw [Bool.and_eq_true] at h
  have h1 := h.1
  rw [List.all_eq_true] at h1
  have := h1 k hk
  exact List.mem_of_elem_eq_true this

lemma res_equal_swap_zero {ra rb : PyVal}
    (h : res_equal ra rb 0 = .ok true) : res_equal rb ra 0 = .ok true := by
  cases ra with
  | none =>
    cases rb with
    | none => exact h
    | int n => simp [res_equal] at h
    | str s => simp [res_equal] at h
  | int m =>
    cases rb with
    | none => simp [res_equal] at h
    | int n =>
      simp [res_equal] at h ⊢
      omega
    | str s => simp [res_equal] at h
  | str s =>
    cases rb with
    | none => simp [res_equal] at h
    | int n => simp [res_equal] at h
    | str t => simp [res_equal] at h

lemma res_equal_refl_clean {r : PyVal} (h : cleanRes r = true) :
    res_equal r r 0 = .ok true := by
  cases r with
  | none => simp [res_equal]
  | int n => simp [res_equal]
  | str s => simp [cleanRes] at h

lemma add_delta_ok_of_clean {v : PyVal} (h : cleanVal v = true) (δ : Int) :
    ∃ w, add_delta v δ = .ok w := by
  cases v with
  | none => exact ⟨.none, by simp [add_delta]⟩
  | int n => exact ⟨.int (n + δ), by simp [add_delta]⟩
  | str s =>
    simp [cleanVal] at h
    exact ⟨.str s, by simp [add_delta, h]⟩

lemma msgKeys_ok_of_clean {msgs : List Msg}
    (h : ∀ m ∈ msgs, cleanVal m.ar = true ∧ cleanVal m.dl = true) (δ : Int) :
    ∃ l, msgKeys msgs δ = .ok l := by
  induction msgs with
  | nil => exact ⟨[], rfl⟩
  | cons m rest ih =>
    have hm := h m (by simp)
    rcases add_delta_ok_of_clean hm.1 δ with ⟨a, ha⟩
    rcases add_delta_ok_of_clean hm.2 δ with ⟨d, hd⟩
    rcases ih (fun x hx => h x (by simp [hx])) with ⟨l, hl⟩
    refine ⟨(m.sid, m.rid, m.body, a, d) :: l, ?_⟩
    unfold msgKeys
    rw [ha, hd, hl]

lemma msgs_to_multiset_ok_of_clean {msgs : List Msg}
    (h : ∀ m ∈ msgs, cleanVal m.ar = true ∧ cleanVal m.dl = true) (δ : Int) :
    ∃ bag, msgs_to_multiset msgs δ = .ok bag := by
  rcases msgKeys_ok_of_clean h δ with ⟨l, hl⟩
  exact ⟨(l : Multiset MsgKey), by unfold msgs_to_multiset; rw [hl]; rfl⟩

lemma chkActor_ok_true_iff (δ : Int) (X Y : ActorRec) :
    chkActor δ X Y = .ok true ↔
      pyDictEq X.vars Y.vars = true ∧ X.pc = Y.pc ∧ X.bag_size = Y.bag_size ∧
      res_equal X.res Y.res δ = .ok true ∧
      ∃ bag, msgs_to_multiset X.messages 0 = .ok bag ∧
             msgs_to_multiset Y.messages δ = .ok bag := by
  unfold chkActor
  by_cases h1 : pyDictEq X.vars Y.vars
  · by_cases h2 : X.pc = Y.pc
    · by_cases h3 : X.bag_size = Y.bag_size
      · rw [if_neg (not_not_intro h1), if_neg (not_not_intro h2),
          if_neg (not_not_intro h3)]
        cases hres : res_equal X.res Y.res δ with
        | error e => simp [resStep, hres, h1, h2, h3]
        | ok b =>
          cases b with
          | false => simp [resStep, hres, h1, h2, h3]
          | true =>
            simp only [resStep, h1, h2, h3, hres, true_and]
            cases hA : msgs_to_multiset X.messages 0 with
            | error e => simp [bagStep, hA]
            | ok bagA =>
              cases hB : msgs_to_multiset Y.messages δ with
              | error e => simp [bagStep, hB]
              | ok bagB =>
                simp only [bagStep, Except.ok.injEq, decide_eq_true_eq,
                  Option.some.injEq]
                constructor
                · intro he
                  exact ⟨bagA, rfl, by rw [he]⟩
                · rintro ⟨bag, hb1, hb2⟩
                  rw [hb1, hb2]
      · rw [if_neg (not_not_intro h1), if_neg (not_not_intro h2), if_pos h3]
        simp [h3]
    · rw [if_neg (not_not_intro h1), if_pos h2]
      simp [h2]
  · rw [if_pos h1]
    simp [h1]

lemma chkActor_zero_symm {X Y : ActorRec}
    (h : chkActor 0 X Y = .ok true) : chkActor 0 Y X = .ok true := by
  rw [chkActor_ok_true_iff] at h ⊢
  obtain ⟨h1, h2, h3, h4, bag, h5, h6⟩ := h
  exact ⟨pyDictEq_symm_true h1, h2.symm, h3.symm, res_equal_swap_zero h4,
    bag, h6, h5⟩

lemma checkRebecs_ok_true_iff (B : List (String × ActorRec)) (δ : Int)
    (l : List (String × ActorRec)) (x : Option Int) :
    checkRebecs B δ l = .ok (true, x) ↔
      x = some δ ∧
      ∀ r RA, (r, RA) ∈ l →
        ∃ RB, dlookup B r = some RB ∧ chkActor δ RA RB = .ok true := by
  induction l with
  | nil =>
    constructor
    · intro h
      unfold checkRebecs at h
      simp only [Except.ok.injEq, Prod.mk.injEq] at h
      exact ⟨h.2.symm, fun r RA hmem => absurd hmem (List.not_mem_nil _)⟩
    · rintro ⟨hx, -⟩
      unfold checkRebecs
      rw [hx]
  | cons p rest ih =>
    obtain ⟨r, RA⟩ := p
    constructor
    · intro h
      unfold checkRebecs at h
      cases hl : dlookup B r with
      | none => rw [hl] at h; simp at h
      | some RB =>
        rw [hl] at h
        simp only [Option.elim_some] at h
        cases hc : chkActor δ RA RB with
        | error e => rw [hc] at h; simp [afterChk] at h
        | ok b =>
          rw [hc] at h
          cases b with
          | false => simp [afterChk] at h
          | true =>
            simp only [afterChk] at h
            rw [ih] at h
            refine ⟨h.1, ?_⟩
            intro r' RA' hmem
            rcases List.mem_cons.mp hmem with he | hmem'
            · rw [Prod.mk.injEq] at he
              exact ⟨RB, by rw [he.1]; exact hl, by rw [he.2]; exact hc⟩
            · exact h.2 r' RA' hmem'
    · rintro ⟨hx, hall⟩
      have hhead := hall r RA (by simp)
      rcases hhead with ⟨RB, hl, hc⟩
      unfold checkRebecs
      rw [hl]
      simp only [Option.elim_some]
      rw [hc]
      simp only [afterChk]
      rw [ih]
      exact ⟨hx, fun r' RA' hmem => hall r' RA' (by simp [hmem])⟩

lemma core_ok_true_iff (A B : StateRec) (x : Option Int) :
    shift_equiv_core A B = .ok (true, x) ↔
      x = some (A.now - B.now) ∧ sameKeySet A.rebecs B.rebecs = true ∧
      ∀ r RA, (r, RA) ∈ A.rebecs →
        ∃ RB, dlookup B.rebecs r = some RB ∧
          chkActor (A.now - B.now) RA RB = .ok true := by
  unfold shift_equiv_core
  have hclock : ¬ A.now ≠ B.now + (A.now - B.now) := by omega
  simp only [hclock, if_false]
  by_cases hks : sameKeySet A.rebecs B.rebecs
  · simp only [hks, not_true, if_false]
    rw [checkRebecs_ok_true_iff]
    tauto
  · rw [if_pos hks]
    simp [hks]

end ShiftEquivalenceLemmas

section ShiftEquivalenceClaims

/-- Two states identical except for the resource: clock 10 on both
sides, one actor, A's resource the integer 5. -/
def finResState : StateRec := ⟨10, [("ctrl", ⟨.str "p", .int 5, [], 0, []⟩)]⟩

/-- The same state but with the resource "infinity". -/
def infResState : StateRec := ⟨10, [("ctrl", ⟨.str "p", .str "infinity", [], 0, []⟩)]⟩

/-- C1: the spec's resource rule fails on the code.  `res_equal` treats
only `None` as the absent/infinite case; the string "infinity" reaches
`ra == rb + delta`, so a finite A-resource against an infinite
B-resource raises `TypeError` (instead of yielding not-equal), two
infinite resources also raise `TypeError` (instead of being equal), and
on the spec's Scenario 2 (identical states, one resource finite, the
other "infinite") `shift_equivalent` raises instead of returning
`(false, null)`. -/
theorem res_equal_infinity_raises :
    res_equal (.int 5) (.str "infinity") 0 = .error "TypeError" ∧
    res_equal (.str "infinity") (.str "infinity") 0 = .error "TypeError" ∧
    shift_equivalent finResState infResState = .error "TypeError" :=
  ⟨by decide, by decide, by decide⟩

/-- A state carrying an "infinity" resource, used to refute reflexivity
as literally claimed. -/
def selfInfState : StateRec := ⟨7, [("ctrl", ⟨.str "p", .str "infinity", [], 0, []⟩)]⟩

/-- C2 counterexample: `shift_equivalent(A, A)` does not return
`(true, 0)` for every state; on a state whose actor resource is
"infinity" it raises `TypeError` instead. -/
theorem shift_equivalent_not_refl_on_infinity :
    shift_equivalent selfInfState selfInfState = .error "TypeError" := by decide

/-- C2 (amended): symmetry holds as claimed — whenever
`shift_equivalent(A, B)` returns `(true, Δ)`, so does
`shift_equivalent(B, A)` with the same `Δ ≥ 0` — and reflexivity
`shift_equivalent(A, A) = (true, 0)` holds for every state (with
distinct actor names) whose resources are absent or integers and whose
message arrival/deadline fields are integers, absent, or "infinity"
(on other states the comparison can raise `TypeError`). -/
theorem shift_equivalent_symm_and_refl :
    (∀ A B : StateRec, ∀ d : Int,
        (A.rebecs.map Prod.fst).Nodup → (B.rebecs.map Prod.fst).Nodup →
        shift_equivalent A B = .ok (true, some d) →
        shift_equivalent B A = .ok (true, some d) ∧ 0 ≤ d) ∧
    (∀ A : StateRec, (A.rebecs.map Prod.fst).Nodup → cleanState A = true →
        shift_equivalent A A = .ok (true, some 0)) := by
  constructor
  · intro A B d hA hB h
    unfold shift_equivalent at h ⊢
    by_cases hlt : A.now - B.now < 0
    · rw [if_pos hlt] at h
      rw [if_neg (by omega : ¬ B.now - A.now < 0)]
      rcases (core_ok_true_iff B A (some d)).mp h with ⟨hd, -, -⟩
      have hd' : d = B.now - A.now := Option.some.inj hd
      exact ⟨h, by omega⟩
    · rw [if_neg hlt] at h
      by_cases heq : A.now = B.now
      · have h0 : A.now - B.now = 0 := by omega
        have h0' : B.now - A.now = 0 := by omega
        rcases (core_ok_true_iff A B (some d)).mp h with ⟨hd, hks, hall⟩
        have hd0 : d = 0 := by rw [h0] at hd; exact Option.some.inj hd
        rw [if_neg (by omega : ¬ B.now - A.now < 0)]
        refine ⟨?_, by omega⟩
        rw [core_ok_true_iff]
        refine ⟨by rw [hd0, h0'], sameKeySet_symm_true hks, ?_⟩
        intro r RB hmemB
        have hrB : r ∈ B.rebecs.map Prod.fst := List.mem_map_of_mem Prod.fst hmemB
        have hrA : r ∈ A.rebecs.map Prod.fst :=
          sameKeySet_mem (sameKeySet_symm_true hks) hrB
        rcases exists_dlookup_of_mem_keys hrA with ⟨RA, hRA⟩
        have hmemA : (r, RA) ∈ A.rebecs := dlookup_mem hRA
        rcases hall r RA hmemA with ⟨RB', hRB', hchk⟩
        have hRBl : dlookup B.rebecs r = some RB := dlookup_of_mem_nodup hB hmemB
        have hRBeq : RB' = RB := by rw [hRB'] at hRBl; exact Option.some.inj hRBl
        subst hRBeq
        refine ⟨RA, hRA, ?_⟩
        rw [h0']
        have hchk0 : chkActor 0 RA RB' = .ok true := by rw [← h0]; exact hchk
        exact chkActor_zero_symm hchk0
      · have hlt' : B.now - A.now < 0 := by omega
        rw [if_pos hlt']
        rcases (core_ok_true_iff A B (some d)).mp h with ⟨hd, -, -⟩
        have hd' : d = A.now - B.now := Option.some.inj hd
        exact ⟨h, by omega⟩
  · intro A hA hclean
    unfold shift_equivalent
    rw [if_neg (by omega : ¬ A.now - A.now < 0)]
    rw [core_ok_true_iff]
    simp only [sub_self]
    refine ⟨trivial, sameKeySet_refl _, ?_⟩
    intro r RA hmem
    refine ⟨RA, dlookup_of_mem_nodup hA hmem, ?_⟩
    rw [chkActor_ok_true_iff]
    unfold cleanState at hclean
    rw [List.all_eq_true] at hclean
    have hcl := hclean (r, RA) hmem
    rw [Bool.and_eq_true] at hcl
    have hmsgs : ∀ m ∈ RA.messages, cleanVal m.ar = true ∧ cleanVal m.dl = true := by
      intro m hm
      have := hcl.2
      rw [List.all_eq_true] at this
      have := this m hm
      rw [Bool.and_eq_true] at this
      exact this
    rcases msgs_to_multiset_ok_of_clean hmsgs 0 with ⟨bag, hbag⟩
    exact ⟨pyDictEq_refl _, rfl, rfl, res_equal_refl_clean hcl.1, bag, hbag, hbag⟩

/-- Scenario-1 states for the witness: clocks 13 and 10, equal locals
and pc, resources 5 and 2 (a consistent Δ = 3), no messages. -/
def symHigh : StateRec := ⟨13, [("r", ⟨.str "p", .int 5, [("x", "1")], 0, []⟩)]⟩

/-- The Δ = 3 partner of `symHigh`. -/
def symLow : StateRec := ⟨10, [("r", ⟨.str "p", .int 2, [("x", "1")], 0, []⟩)]⟩

/-- Witness for the amended C2 theorem at the Scenario-1 pair and at a
clean single-actor state. -/
theorem shift_equivalent_symm_and_refl_witness :
    (shift_equivalent symLow symHigh = .ok (true, some 3) ∧ (0 : Int) ≤ 3) ∧
    shift_equivalent symLow symLow = .ok (true, some 0) :=
  ⟨shift_equivalent_symm_and_refl.1 symHigh symLow 3 (by decide) (by decide)
      (by decide),
   shift_equivalent_symm_and_refl.2 symLow (by decide) (by decide)⟩

/-- The message list of the smaller-clock state of the C3 pair. -/
def msgsLow : List Msg := [⟨"s", "a", "b", .int 1, .str "infinity"⟩]

/-- The message list of the larger-clock state of the C3 pair. -/
def msgsHigh : List Msg := [⟨"s", "a", "b", .int 4, .str "infinity"⟩]

/-- The actor of the smaller-clock state of the C3 pair. -/
def actLow : ActorRec := ⟨.str "p", .none, [], 1, msgsLow⟩

/-- The actor of the larger-clock state of the C3 pair. -/
def actHigh : ActorRec := ⟨.str "p", .none, [], 1, msgsHigh⟩

/-- A state with clock 0 and one message with arrival 1. -/
def bagStateLow : StateRec := ⟨0, [("a", actLow)]⟩

/-- A state with clock 3 and one message with arrival 4. -/
def bagStateHigh : StateRec := ⟨3, [("a", actHigh)]⟩

/-- C3 counterexample: `shift_equivalent(A, B)` accepts this pair with
Δ = 3 (because `A.now < B.now`, the code swaps the operands and shifts
A's side), yet A's message bag does **not** equal B's bag shifted by +Δ,
refuting the claim's fixed assignment of the shift to B's side. -/
theorem msgs_shift_fixed_side_fails :
    shift_equivalent bagStateLow bagStateHigh = .ok (true, some 3) ∧
    msgs_to_multiset msgsLow 0 ≠ msgs_to_multiset msgsHigh 3 :=
  ⟨by decide, by decide⟩

/-- C3 (amended): when `shift_equivalent(A, B)` accepts with shift Δ,
then for every actor the message bags match with the +Δ shift applied on
the side with the **smaller** clock: if `B.now ≤ A.now` then A's
unshifted bag equals B's bag shifted by +Δ, and otherwise B's unshifted
bag equals A's bag shifted by +Δ (so any per-actor mismatch in that
orientation forces a non-accepting answer). -/
theorem shift_equivalent_bags :
    ∀ A B : StateRec, ∀ d : Int,
      (A.rebecs.map Prod.fst).Nodup → (B.rebecs.map Prod.fst).Nodup →
      shift_equivalent A B = .ok (true, some d) →
      ∀ r RA RB, (r, RA) ∈ A.rebecs → (r, RB) ∈ B.rebecs →
        if B.now ≤ A.now then
          ∃ bag, msgs_to_multiset RA.messages 0 = .ok bag ∧
                 msgs_to_multiset RB.messages d = .ok bag
        else
          ∃ bag, msgs_to_multiset RB.messages 0 = .ok bag ∧
                 msgs_to_multiset RA.messages d = .ok bag := by
  intro A B d hA hB h r RA RB hmA hmB
  unfold shift_equivalent at h
  by_cases hlt : A.now - B.now < 0
  · rw [if_pos hlt] at h
    rw [if_neg (by omega : ¬ B.now ≤ A.now)]
    rcases (core_ok_true_iff B A (some d)).mp h with ⟨hd, -, hall⟩
    have hd' : d = B.now - A.now := Option.some.inj hd
    rcases hall r RB hmB with ⟨RA', hRA', hchk⟩
    have hRAl : dlookup A.rebecs r = some RA := dlookup_of_mem_nodup hA hmA
    have hRAeq : RA' = RA := by rw [hRA'] at hRAl; exact Option.some.inj hRAl
    subst hRAeq
    rcases (chkActor_ok_true_iff _ RB RA').mp hchk with ⟨-, -, -, -, bag, hb1, hb2⟩
    exact ⟨bag, hb1, by rw [hd']; exact hb2⟩
  · rw [if_neg hlt] at h
    rw [if_pos (by omega : B.now ≤ A.now)]
    rcases (core_ok_true_iff A B (some d)).mp h with ⟨hd, -, hall⟩
    have hd' : d = A.now - B.now := Option.some.inj hd
    rcases hall r RA hmA with ⟨RB', hRB', hchk⟩
    have hRBl : dlookup B.rebecs r = some RB := dlookup_of_mem_nodup hB hmB
    have hRBeq : RB' = RB := by rw [hRB'] at hRBl; exact Option.some.inj hRBl
    subst hRBeq
    rcases (chkActor_ok_true_iff _ RA RB').mp hchk with ⟨-, -, -, -, bag, hb1, hb2⟩
    exact ⟨bag, hb1, by rw [hd']; exact hb2⟩

/-- Witness for the amended C3 theorem at the accepted swapped-clock
pair: the shift lands on the smaller-clock side. -/
theorem shift_equivalent_bags_witness :
    shift_equivalent bagStateLow bagStateHigh = .ok (true, some 3) ∧
    (if bagStateHigh.now ≤ bagStateLow.now then
      ∃ bag, msgs_to_multiset actLow.messages 0 = .ok bag ∧
             msgs_to_multiset actHigh.messages 3 = .ok bag
    else
      ∃ bag, msgs_to_multiset actHigh.messages 0 = .ok bag ∧
             msgs_to_multiset actLow.messages 3 = .ok bag) :=
  ⟨by decide,
   shift_equivalent_bags bagStateLow bagStateHigh 3 (by decide) (by decide)
     (by decide) "a" actLow actHigh (by decide) (by decide)⟩

end ShiftEquivalenceClaims

section MergeModel

/-- A child XML node as `xmltodict` yields it inside a transition
element: either a plain text node (a Python `str`) or an attributed node
with an optional "@ref" attribute and optional "#text" content. -/
inductive XmlNode where
  | text : String → XmlNode
  | attrs : Option String → Option String → XmlNode
deriving DecidableEq

/-- The optional `messageserver` payload of a transition: "@sender" /
"@owner" attributes or nested `sender` / `owner` nodes. -/
structure MsgServer where
  atSender : Option String
  sender : Option XmlNode
  atOwner : Option String
  owner : Option XmlNode
deriving DecidableEq

/-- A `transition` element as `merge_shift_equivalent` reads it: the
source can be the "@source" attribute or a nested `source` node; the
target can be "@target", "@destination", or nested `target` /
`destination` nodes; the label can be "@label", "@title", or nested
`label` / `title` nodes. -/
structure XTrans where
  atSource : Option String
  source : Option XmlNode
  atTarget : Option String
  atDestination : Option String
  target : Option XmlNode
  destination : Option XmlNode
  atLabel : Option String
  atTitle : Option String
  label : Option XmlNode
  title : Option XmlNode
  messageserver : Option MsgServer
deriving DecidableEq

/-- A `state` element.  `merge_shift_equivalent` reads and writes only
its "@id" attribute (the remaining payload is carried along untouched),
so only the id is modelled. -/
structure XState where
  id : String
deriving DecidableEq

/-- Python `a or b` on optional strings: the left operand unless it is
falsy (`None` or the empty string), else the right operand. -/
def pyOr : Option String → Option String → Option String
  | some s, b => if s = "" then b else some s
  | none, b => b

/-- Embedding of `get_node_id(node)` from `1.py`: `None` for a missing
node, `node.strip()` for a text node, and `node.get("@ref") or
node.get("#text")` for an attributed node. -/
def get_node_id : Option XmlNode → Option String
  | none => none
  | some (.text s) => some s.trim
  | some (.attrs ref txt) => pyOr ref txt

/-- The source extraction `tr.get("@source") or get_node_id(tr.get("source"))`. -/
def srcOf (tr : XTrans) : Option String :=
  pyOr tr.atSource (get_node_id tr.source)

/-- The target extraction `tr.get("@target") or tr.get("@destination")
or get_node_id(tr.get("target")) or get_node_id(tr.get("destination"))`. -/
def tgtOf (tr : XTrans) : Option String :=
  pyOr tr.atTarget (pyOr tr.atDestination
    (pyOr (get_node_id tr.target) (get_node_id tr.destination)))

/-- The label extraction, with the final `or ""` fallback. -/
def lblOf (tr : XTrans) : String :=
  (pyOr tr.atLabel (pyOr tr.atTitle
    (pyOr (get_node_id tr.label) (get_node_id tr.title)))).getD ""

/-- The configured ignore set (`IGNORE_REBECS` in the source). -/
def IGNORE_REBECS : List String := ["meaningless"]

/-- Python `x in IGNORE_REBECS` where `x` may be `None`. -/
def inIgnore : Option String → Bool
  | none => false
  | some s => IGNORE_REBECS.contains s

/-- Python dict insertion on an insertion-ordered association list:
overwriting a key keeps its position, a new key is appended. -/
def dinsert {α : Type} (m : List (String × α)) (k : String) (v : α) :
    List (String × α) :=
  if m.any (fun p => p.1 = k) then
    m.map (fun p => if p.1 = k then (k, v) else p)
  else m ++ [(k, v)]

/-- Python whitespace (the ASCII characters accepted by `str.split()` /
`str.strip()`; non-ASCII Unicode whitespace is not modelled). -/
def pyWs (c : Char) : Bool :=
  c = ' ' ∨ c = '\t' ∨ c = '\n' ∨ c = '\r' ∨ c = '\x0b' ∨ c = '\x0c'

/-- Python `s.split()[0]` as used to drop the " (Δ=…)" suffix of a class
member: the first whitespace-separated token, `IndexError` when the
string contains none. -/
def firstTok (s : String) : Except String String :=
  let ds := s.toList.dropWhile (fun c => pyWs c)
  if ds.isEmpty then .error "IndexError"
  else .ok (String.mk (ds.takeWhile (fun c => ¬ pyWs c)))

/-- Step 6.1 of `merge_shift_equivalent`: build `rep_map`, mapping every
class member's first token to the first token of the class's first
member. -/
def buildRepMap (classes : List (List String)) :
    Except String (List (String × String)) :=
  classes.foldlM (fun rm cls =>
    match cls with
    | [] => .error "IndexError"
    | c0 :: _ => do
      let rep ← firstTok c0
      cls.foldlM (fun rm2 sid => do
        let k ← firstTok sid
        pure (dinsert rm2 k rep)) rm) []

/-- Step 6.3: keep one state per class — for every `rep_map` item with
`rep == sid`, store `id_to_state[sid]` under `rep` (a `KeyError` if the
representative is not a known state id). -/
def buildMergedStates (rm : List (String × String))
    (id_to_state : List (String × XState)) :
    Except String (List (String × XState)) :=
  rm.foldlM (fun acc p =>
    if p.2 = p.1 then
      (dlookup id_to_state p.1).elim (.error "KeyError")
        (fun st => pure (dinsert acc p.2 st))
    else pure acc) []

/-- Patching an endpoint stored as a nested node:
`node["@ref" if "@ref" in node else "#text"] = rep`.  On a plain-text
node this is a Python `TypeError` (`str` item assignment). -/
def patchNode (n : XmlNode) (v : String) : Except String XmlNode :=
  match n with
  | .text _ => .error "TypeError"
  | .attrs ref txt =>
    if ref.isSome then .ok (.attrs (some v) txt) else .ok (.attrs ref (some v))

/-- Patch the source of a surviving transition with its representative. -/
def patchSrc (tr : XTrans) (v : String) : Except String XTrans :=
  if tr.atSource.isSome then .ok { tr with atSource := some v }
  else
    match tr.source with
    | some n => (patchNode n v).map (fun n2 => { tr with source := some n2 })
    | none => .ok tr

/-- Patch the target of a surviving transition with its representative
(`@target`, else `@destination`, else the nested nodes). -/
def patchTgt (tr : XTrans) (v : String) : Except String XTrans :=
  if tr.atTarget.isSome then .ok { tr with atTarget := some v }
  else if tr.atDestination.isSome then .ok { tr with atDestination := some v }
  else
    match tr.target with
    | some n => (patchNode n v).map (fun n2 => { tr with target := some n2 })
    | none =>
      match tr.destination with
      | some n => (patchNode n v).map (fun n2 => { tr with destination := some n2 })
      | none => .ok tr

/-- The dedup key `(src_rep, tgt_rep, lbl)`. -/
abbrev TransKey := String × String × String

/-- The messageserver ignore filter of the transition loop: drop the
edge when its sender or owner is an ignored rebec. -/
def ignoreSkip (tr : XTrans) : Bool :=
  match tr.messageserver with
  | none => false
  | some ms =>
    inIgnore (pyOr ms.atSender (get_node_id ms.sender)) ||
    inIgnore (pyOr ms.atOwner (get_node_id ms.owner))

/-- The rewiring tail of one transition-loop iteration, once both
endpoint ids are known to be present: resolve them through `rep_map`
(`KeyError` if absent) and keep the first transition per dedup key,
endpoints patched to the representatives. -/
def transResolve (rm : List (String × String)) (uniq : List (TransKey × XTrans))
    (tr : XTrans) (src tgt : String) : Except String (List (TransKey × XTrans)) :=
  (dlookup rm src).elim (.error "KeyError") (fun srep =>
    (dlookup rm tgt).elim (.error "KeyError") (fun trep =>
      if uniq.any (fun q => q.1 = (srep, trep, lblOf tr)) then .ok uniq
      else do
        let t1 ← patchSrc tr srep
        let t2 ← patchTgt t1 trep
        pure (uniq ++ [((srep, trep, lblOf tr), t2)])))

/-- One iteration of the transition loop of `merge_shift_equivalent`:
drop edges whose messageserver names an ignored rebec, skip (with a
logged warning) edges with missing source/target, then rewire. -/
def transStep (rm : List (String × String)) (uniq : List (TransKey × XTrans))
    (tr : XTrans) : Except String (List (TransKey × XTrans)) :=
  if ignoreSkip tr then .ok uniq
  else
    (srcOf tr).elim (.ok uniq) (fun src =>
      (tgtOf tr).elim (.ok uniq) (fun tgt => transResolve rm uniq tr src tgt))

/-- Lexicographic code-point comparison of character lists, matching
Python's string ordering. -/
def charListLe : List Char → List Char → Bool
  | [], _ => true
  | _ :: _, [] => false
  | a :: as, b :: bs =>
    if a.toNat < b.toNat then true
    else if b.toNat < a.toNat then false
    else charListLe as bs

/-- Python `<=` on strings (used through `sorted`). -/
def strLe (a b : String) : Bool := charListLe a.toList b.toList

/-- Insert into an already sorted list, before the first element that is
not smaller (stable). -/
def insertSorted (x : String) : List String → List String
  | [] => [x]
  | y :: ys => if strLe x y then x :: y :: ys else y :: insertSorted x ys

/-- Python `sorted` on a list of strings, embedded as stable insertion
sort (any stable comparison sort computes the same list). -/
def sortStrs : List String → List String
  | [] => []
  | x :: xs => insertSorted x (sortStrs xs)

/-- Python `set.add`: append if absent (the renumbering step sorts the
set, so insertion order is irrelevant). -/
def addSet (s : List String) (v : String) : List String :=
  if s.contains v then s else s ++ [v]

/-- One transition's contribution to the endpoint collection of the
renumbering step: its truthy "@source" and "@destination" values
("@target" and nested nodes are not inspected). -/
def collectStep (s : List String) (t : XTrans) : List String :=
  let s1 :=
    match t.atSource with
    | some v => if v ≠ "" then addSet s v else s
    | none => s
  match t.atDestination with
  | some v => if v ≠ "" then addSet s1 v else s1
  | none => s1

/-- The renumbering step's endpoint collection over the rewritten
transition list. -/
def collectEndpoints (trs : List XTrans) : List String :=
  trs.foldl collectStep []

/-- Decimal digit characters. -/
def digitChar10 : Nat → Char
  | 0 => '0'
  | 1 => '1'
  | 2 => '2'
  | 3 => '3'
  | 4 => '4'
  | 5 => '5'
  | 6 => '6'
  | 7 => '7'
  | 8 => '8'
  | 9 => '9'
  | _ => '!'

/-- Fuel-driven decimal printer (the fuel `n + 1` always suffices, since
a number has at most `n + 1` digits). -/
def natDecimalAux : Nat → Nat → List Char → List Char
  | 0, _, acc => acc
  | fuel + 1, n, acc =>
    if n < 10 then digitChar10 n :: acc
    else natDecimalAux fuel (n / 10) (digitChar10 (n % 10) :: acc)

/-- Python `str()` of a nonnegative integer: its decimal digits. -/
def natDecimal (n : Nat) : String := String.mk (natDecimalAux (n + 1) n [])

/-- The canonical-id map of the renumbering step (`enumerate` in the
source): the sorted endpoint id at 0-based position `i` is renamed to
`"{i+1}_0"`. -/
def stateMappingAux : Nat → List String → List (String × String)
  | _, [] => []
  | i, v :: rest => (v, natDecimal (i + 1) ++ "_0") :: stateMappingAux (i + 1) rest

/-- The canonical-id map over the whole sorted endpoint list. -/
def stateMapping (sortedIds : List String) : List (String × String) :=
  stateMappingAux 0 sortedIds

/-- The canonical-id map computed by the renumbering step from the
rewritten transition list. -/
def endpointMapping (trs1 : List XTrans) : List (String × String) :=
  stateMapping (sortStrs (collectEndpoints trs1))

/-- Renumbering of one transition: its "@source" and "@destination"
attributes are pushed through `state_mapping.get(x, x)`; nothing else
(in particular not "@target") is touched. -/
def renumberOne (mapping : List (String × String)) (t : XTrans) : XTrans :=
  let t1 :=
    match t.atSource with
    | some v => { t with atSource := some ((dlookup mapping v).getD v) }
    | none => t
  match t1.atDestination with
  | some v => { t1 with atDestination := some ((dlookup mapping v).getD v) }
  | none => t1

/-- Renumbering of the rewritten transition list. -/
def renumberTrans (mapping : List (String × String)) (trs1 : List XTrans) :
    List XTrans :=
  trs1.map (renumberOne mapping)

/-- Renumbering of the merged state list: a state whose id occurs in the
mapping gets the canonical id, other states are left as they are. -/
def renumberStates (mapping : List (String × String))
    (merged : List (String × XState)) : List XState :=
  merged.map (fun q =>
    match dlookup mapping q.2.id with
    | some nid => ({ id := nid } : XState)
    | none => q.2)

/-- Embedding of `merge_shift_equivalent(ts_root, classes)` from `1.py`
(the state/transition rebuild; the XML serialization side effect at the
end is outside the model).  Returns the final `new_ts["state"]` ids and
`new_ts["transition"]` list after rewiring, dedup and renumbering. -/
def merge_shift_equivalent (states : List XState) (transitions : List XTrans)
    (classes : List (List String)) :
    Except String (List XState × List XTrans) := do
  let rm ← buildRepMap classes
  let merged ← buildMergedStates rm (states.foldl (fun m st => dinsert m st.id st) [])
  let uniq ← transitions.foldlM (transStep rm) []
  pure (renumberStates (endpointMapping (uniq.map (fun q => q.2))) merged,
        renumberTrans (endpointMapping (uniq.map (fun q => q.2)))
          (uniq.map (fun q => q.2)))

end MergeModel

section MergeLemmas

lemma except_ok_bind {α β : Type} (a : α) (f : α → Except String β) :
    (Except.ok a >>= f) = f a := rfl

lemma except_error_bind {α β : Type} (e : String) (f : α → Except String β) :
    ((Except.error e : Except String α) >>= f) = .error e := rfl

lemma foldlM_except_invariant {α β : Type} (f : β → α → Except String β)
    (Inv : β → Prop) (l : List α)
    (hstep : ∀ b a, a ∈ l → Inv b → ∀ b2, f b a = .ok b2 → Inv b2) :
    ∀ b0 b1, Inv b0 → l.foldlM f b0 = .ok b1 → Inv b1 := by
  induction l with
  | nil =>
    intro b0 b1 h0 hfold
    simp only [List.foldlM_nil] at hfold
    cases hfold
    exact h0
  | cons a rest ih =>
    intro b0 b1 h0 hfold
    rw [List.foldlM_cons] at hfold
    cases hf : f b0 a with
    | error e => rw [hf, except_error_bind] at hfold; cases hfold
    | ok b2 =>
      rw [hf, except_ok_bind] at hfold
      exact ih (fun b a' ha' => hstep b a' (by simp [ha'])) b2 b1
        (hstep b0 a (by simp) h0 b2 hf) hfold

lemma mem_dinsert {α : Type} {m : List (String × α)} {k : String} {v : α}
    {q : String × α} (h : q ∈ dinsert m k v) : q ∈ m ∨ q = (k, v) := by
  unfold dinsert at h
  by_cases hany : m.any (fun p => p.1 = k)
  · rw [if_pos hany] at h
    rcases List.mem_map.mp h with ⟨p, hp, hq⟩
    by_cases hpk : p.1 = k
    · right; rw [← hq, if_pos hpk]
    · left; rw [← hq, if_neg hpk]; exact hp
  · rw [if_neg hany] at h
    rcases List.mem_append.mp h with h | h
    · exact Or.inl h
    · exact Or.inr (by simpa using h)

lemma dlookup_dinsert_self {α : Type} (m : List (String × α)) (k : String) (v : α) :
    dlookup (dinsert m k v) k = some v := by
  unfold dinsert
  by_cases hany : m.any (fun p => p.1 = k)
  · rw [if_pos hany]
    induction m with
    | nil => simp at hany
    | cons p rest ih =>
      by_cases hpk : p.1 = k
      · unfold dlookup
        simp only [List.map_cons, if_pos hpk]
        rw [List.find?_cons_of_pos _ (by simp)]
        rfl
      · have hrest : rest.any (fun p => p.1 = k) := by
          simp only [List.any_cons, decide_eq_true_eq] at hany
          rcases Bool.or_eq_true .. ▸ hany with h | h
          · exact absurd (by simpa using h) hpk
          · exact h
        have := ih hrest
        unfold dlookup at this ⊢
        simp only [List.map_cons, if_neg hpk]
        rw [List.find?_cons_of_neg _ (by simp [hpk])]
        exact this
  · rw [if_neg hany]
    induction m with
    | nil =>
      unfold dlookup
      rw [List.nil_append, List.find?_cons_of_pos _ (by simp)]
      rfl
    | cons p rest ih =>
      have hpk : ¬ p.1 = k := by
        intro he
        exact hany (by simp [List.any_cons, he])
      have hrest : ¬ rest.any (fun p => p.1 = k) := by
        intro hr
        exact hany (by simp [List.any_cons, hr])
      have := ih hrest
      unfold dlookup at this ⊢
      rw [List.cons_append, List.find?_cons_of_neg _ (by simp [hpk])]
      exact this

lemma dlookup_dinsert_ne {α : Type} (m : List (String × α)) (k k' : String) (v : α)
    (h : k' ≠ k) : dlookup (dinsert m k v) k' = dlookup m k' := by
  unfold dinsert
  by_cases hany : m.any (fun p => p.1 = k)
  · rw [if_pos hany]
    clear hany
    induction m with
    | nil => rfl
    | cons p rest ih =>
      by_cases hpk : p.1 = k
      · unfold dlookup
        simp only [List.map_cons, if_pos hpk]
        rw [List.find?_cons_of_neg _ (by simp [Ne.symm h]),
          List.find?_cons_of_neg _ (by simp [hpk ▸ (Ne.symm h)])]
        exact ih
      · by_cases hpk' : p.1 = k'
        · unfold dlookup
          simp only [List.map_cons, if_neg hpk]
          rw [List.find?_cons_of_pos _ (by simp [hpk']),
            List.find?_cons_of_pos _ (by simp [hpk'])]
        · unfold dlookup
          simp only [List.map_cons, if_neg hpk]
          rw [List.find?_cons_of_neg _ (by simp [hpk']),
            List.find?_cons_of_neg _ (by simp [hpk'])]
          exact ih
  · rw [if_neg hany]
    unfold dlookup
    rw [List.find?_append]
    cases hm : m.find? (fun p => p.1 = k') with
    | some p => simp [hm]
    | none =>
      simp only [hm, Option.none_or]
      rw [List.find?_cons_of_neg _ (by simp [Ne.symm h])]
      simp [List.find?]

end MergeLemmas

section MergeClaimFour

lemma transStep_skip {t : XTrans} (h : srcOf t = none ∨ tgtOf t = none)
    (rm : List (String × String)) (uniq : List (TransKey × XTrans)) :
    transStep rm uniq t = .ok uniq := by
  unfold transStep
  by_cases hskip : ignoreSkip t = true
  · rw [if_pos hskip]
  · rw [if_neg hskip]
    rcases h with h | h
    · rw [h]
      rfl
    · rw [h]
      cases srcOf t <;> rfl

/-- C4 (amended): a transition whose extracted source or target is
missing (Python `None`) is discarded — with a logged warning — and the
merge continues as if the transition were absent; removing such a
transition from anywhere in the list leaves the result of
`merge_shift_equivalent` unchanged (in particular no exception arises
from it).  Unresolvable but present ids, by contrast, raise `KeyError`
(see the counterexample). -/
theorem merge_skips_missing_endpoints :
    ∀ (states : List XState) (classes : List (List String))
      (pre post : List XTrans) (t : XTrans),
      srcOf t = none ∨ tgtOf t = none →
      merge_shift_equivalent states (pre ++ t :: post) classes =
      merge_shift_equivalent states (pre ++ post) classes := by
  intro states classes pre post t h
  unfold merge_shift_equivalent
  cases hrm : buildRepMap classes with
  | error e => rfl
  | ok rm =>
    simp only [except_ok_bind]
    have hfold : (pre ++ t :: post).foldlM (transStep rm)
        ([] : List (TransKey × XTrans)) =
        (pre ++ post).foldlM (transStep rm) [] := by
      rw [List.foldlM_append, List.foldlM_append]
      cases hpre : pre.foldlM (transStep rm) ([] : List (TransKey × XTrans)) with
      | error e => rw [except_error_bind, except_error_bind]
      | ok acc =>
        rw [except_ok_bind, except_ok_bind, List.foldlM_cons,
          transStep_skip h rm acc, except_ok_bind]
    rw [hfold]

/-- An input transition referencing a state id that is absent from the
representative map. -/
def orphanSrcTrans : XTrans :=
  ⟨some "zzz", none, none, some "a", none, none, some "l", none, none, none, none⟩

/-- C4 counterexample: the claim says a transition whose source id does
not resolve through `rep_map` is discarded with a warning and the merge
never fails; in fact `rep_map[src]` raises `KeyError` on it. -/
theorem merge_raises_on_unresolved_id :
    merge_shift_equivalent [⟨"a"⟩] [orphanSrcTrans] [["a"]] =
      .error "KeyError" := by decide

/-- A transition with no source at all (neither attribute nor node). -/
def noSrcTrans : XTrans :=
  ⟨none, none, none, some "a", none, none, some "l", none, none, none, none⟩

/-- A well-formed self-loop transition on state "a". -/
def selfLoopTrans : XTrans :=
  ⟨some "a", none, none, some "a", none, none, some "x", none, none, none, none⟩

/-- Witness for the amended C4 theorem: dropping the source-less
transition from the input leaves the merge result unchanged. -/
theorem merge_skips_missing_endpoints_witness :
    (srcOf noSrcTrans = none ∨ tgtOf noSrcTrans = none) ∧
    merge_shift_equivalent [⟨"a"⟩] ([] ++ noSrcTrans :: [selfLoopTrans]) [["a"]] =
      merge_shift_equivalent [⟨"a"⟩] ([] ++ [selfLoopTrans]) [["a"]] :=
  ⟨Or.inl (by decide),
   merge_skips_missing_endpoints [⟨"a"⟩] [["a"]] [] [selfLoopTrans] noSrcTrans
     (Or.inl (by decide))⟩

end MergeClaimFour

section MergeClaimFive

/-- An input transition written with `@source` / `@destination`. -/
def srcDstTrans : XTrans :=
  ⟨some "a", none, none, some "b", none, none, some "l1", none, none, none, none⟩

/-- An input transition written with `@source` / `@target`: the rewiring
step patches `@target`, but the renumbering step neither collects nor
renames it. -/
def atTargetTrans : XTrans :=
  ⟨some "b", none, some "a", none, none, none, some "l2", none, none, none, none⟩

/-- C5 counterexample: with two singleton classes (nothing merged), the
output contains a transition whose `@target` endpoint still reads "a",
while every output state id has been renumbered to "1_0" / "2_0" — a
dangling reference to a renamed state, refuting the claim that every
output transition endpoint id names an output state. -/
theorem quotient_dangles_on_target_attribute :
    merge_shift_equivalent [⟨"a"⟩, ⟨"b"⟩] [srcDstTrans, atTargetTrans]
        [["a"], ["b"]] =
      .ok ([⟨"1_0"⟩, ⟨"2_0"⟩],
        [⟨some "1_0", none, none, some "2_0", none, none, some "l1",
            none, none, none, none⟩,
         ⟨some "2_0", none, some "a", none, none, none, some "l2",
            none, none, none, none⟩]) ∧
    (∀ st : XState, st ∈ [(⟨"1_0"⟩ : XState), ⟨"2_0"⟩] → st.id ≠ "a") :=
  ⟨by decide, by decide⟩

lemma dropWhile_head_false {p : Char → Bool} :
    ∀ (l : List Char) (c : Char) (rest : List Char),
      l.dropWhile p = c :: rest → p c = false := by
  intro l
  induction l with
  | nil => intro c rest hl; simp at hl
  | cons a as ih =>
    intro c rest hl
    rw [List.dropWhile_cons] at hl
    by_cases ha : p a = true
    · rw [if_pos ha] at hl
      exact ih c rest hl
    · rw [if_neg ha] at hl
      cases hl
      exact Bool.eq_false_iff.mpr ha

lemma firstTok_ne_empty {s r : String} (h : firstTok s = .ok r) : r ≠ "" := by
  unfold firstTok at h
  cases hds : s.toList.dropWhile (fun c => pyWs c) with
  | nil => rw [hds] at h; simp at h
  | cons c rest =>
    have hc : pyWs c = false := dropWhile_head_false _ c rest hds
    rw [hds] at h
    rw [if_neg (by simp)] at h
    rw [List.takeWhile_cons] at h
    rw [if_pos (by simp [hc])] at h
    have hmk := (Except.ok.injEq ..).mp h
    intro hre
    rw [hre] at hmk
    have := congrArg String.data hmk
    simp at this

lemma buildRepMap_values_ne_empty {classes : List (List String)}
    {rm : List (String × String)} (h : buildRepMap classes = .ok rm) :
    ∀ p ∈ rm, p.2 ≠ "" := by
  unfold buildRepMap at h
  refine foldlM_except_invariant _ (fun m => ∀ p ∈ m, p.2 ≠ "") _ ?_ [] rm
    (by intro p hp; simp at hp) h
  intro b cls _ hb b2 hstep
  cases cls with
  | nil => simp at hstep
  | cons c0 crest =>
    simp only at hstep
    cases htok : firstTok c0 with
    | error e => rw [htok, except_error_bind] at hstep; cases hstep
    | ok rep =>
      rw [htok, except_ok_bind] at hstep
      have hrep : rep ≠ "" := firstTok_ne_empty htok
      refine foldlM_except_invariant _ (fun m => ∀ p ∈ m, p.2 ≠ "") _ ?_ b b2 hb hstep
      intro m sid _ hm m2 hstep2
      cases htok2 : firstTok sid with
      | error e => rw [htok2, except_error_bind] at hstep2; cases hstep2
      | ok k =>
        rw [htok2, except_ok_bind] at hstep2
        cases hstep2
        intro p hp
        rcases mem_dinsert hp with hp | hp
        · exact hm p hp
        · rw [hp]; exact hrep

lemma except_pure_bind {α β : Type} (a : α) (f : α → Except String β) :
    ((pure a : Except String α) >>= f) = f a := rfl

lemma id_to_state_id (states : List XState) :
    ∀ k st, dlookup (states.foldl (fun m st => dinsert m st.id st) []) k = some st →
      st.id = k := by
  suffices h : ∀ acc, (∀ k st, dlookup acc k = some st → st.id = k) →
      ∀ k st, dlookup (states.foldl (fun m st => dinsert m st.id st) acc) k = some st →
        st.id = k by
    refine h [] ?_
    intro k st hl
    simp [dlookup] at hl
  induction states with
  | nil => intro acc hacc; simpa using hacc
  | cons s rest ih =>
    intro acc hacc
    simp only [List.foldl_cons]
    apply ih
    intro k st hl
    by_cases hk : k = s.id
    · rw [hk, dlookup_dinsert_self] at hl
      injection hl with hl
      rw [← hl]
      exact hk.symm
    · rw [dlookup_dinsert_ne _ _ _ _ hk] at hl
      exact hacc k st hl

lemma buildMergedStates_mem {rm : List (String × String)}
    {idts : List (String × XState)} {merged : List (String × XState)}
    (hid : ∀ k st, dlookup idts k = some st → st.id = k)
    (hm : buildMergedStates rm idts = .ok merged) {k : String}
    (hkv : (k, k) ∈ rm) :
    ∃ st, dlookup merged k = some st ∧ st.id = k := by
  unfold buildMergedStates at hm
  suffices h : ∀ (l : List (String × String)) (acc : List (String × XState)),
      ((k, k) ∈ l ∨ ∃ st, dlookup acc k = some st ∧ st.id = k) →
      l.foldlM (fun acc p =>
        if p.2 = p.1 then
          (dlookup idts p.1).elim (Except.error "KeyError")
            (fun st => pure (dinsert acc p.2 st))
        else pure acc) acc = .ok merged →
      ∃ st, dlookup merged k = some st ∧ st.id = k by
    exact h rm [] (Or.inl hkv) hm
  intro l
  induction l with
  | nil =>
    intro acc hdisj hfold
    simp only [List.foldlM_nil] at hfold
    cases hfold
    rcases hdisj with hdisj | hdisj
    · exact absurd hdisj (List.not_mem_nil _)
    · exact hdisj
  | cons p rest ih =>
    intro acc hdisj hfold
    rw [List.foldlM_cons] at hfold
    by_cases hpp : p.2 = p.1
    · rw [if_pos hpp] at hfold
      cases hlk : dlookup idts p.1 with
      | none =>
        rw [hlk] at hfold
        simp only [Option.elim_none] at hfold
        rw [except_error_bind] at hfold
        cases hfold
      | some st =>
        rw [hlk] at hfold
        simp only [Option.elim_some] at hfold
        rw [except_pure_bind] at hfold
        have hstid : st.id = p.1 := hid p.1 st hlk
        refine ih (dinsert acc p.2 st) ?_ hfold
        rcases hdisj with hdisj | hdisj
        · rcases List.mem_cons.mp hdisj with he | hmem
          · right
            have hp1 : p.1 = k := by rw [← he]
            have hp2 : p.2 = k := by rw [← he]
            refine ⟨st, ?_, by rw [hstid, hp1]⟩
            rw [hp2, dlookup_dinsert_self]
          · exact Or.inl hmem
        · rcases hdisj with ⟨st0, hst0, hid0⟩
          right
          by_cases hpk : k = p.2
          · refine ⟨st, by rw [hpk, dlookup_dinsert_self], ?_⟩
            rw [hstid, ← hpp, ← hpk]
          · exact ⟨st0, by rw [dlookup_dinsert_ne _ _ _ _ hpk]; exact hst0, hid0⟩
    · rw [if_neg hpp, except_pure_bind] at hfold
      refine ih acc ?_ hfold
      rcases hdisj with hdisj | hdisj
      · rcases List.mem_cons.mp hdisj with he | hmem
        · exfalso
          apply hpp
          rw [← he]
        · exact Or.inl hmem
      · exact Or.inr hdisj

lemma pyOr_none_some {a : Option String} {v : String}
    (h : pyOr a none = some v) : a = some v ∧ v ≠ "" := by
  cases a with
  | none => simp [pyOr] at h
  | some s =>
    simp only [pyOr] at h
    by_cases hs : s = ""
    · rw [if_pos hs] at h; cases h
    · rw [if_neg hs] at h
      injection h with h
      exact ⟨by rw [h], by rw [← h]; exact hs⟩

/-- The invariant maintained by the transition loop over simple
(attribute-addressed) transitions: every kept transition has a
representative-valued "@source" and "@destination" and no "@target". -/
def UniqInv (rm : List (String × String)) (uniq : List (TransKey × XTrans)) : Prop :=
  ∀ q ∈ uniq,
    (∃ s, q.2.atSource = some s ∧ (∃ k, (k, s) ∈ rm)) ∧
    (∃ d, q.2.atDestination = some d ∧ (∃ k, (k, d) ∈ rm)) ∧
    q.2.atTarget = none

lemma transStep_preserves_inv {rm : List (String × String)} {tr : XTrans}
    (hsimple : tr.source = none ∧ tr.atTarget = none ∧
      tr.target = none ∧ tr.destination = none)
    {b b2 : List (TransKey × XTrans)} (hb : UniqInv rm b)
    (hstep : transStep rm b tr = .ok b2) : UniqInv rm b2 := by
  obtain ⟨hsrcN, htgtN, htgtN2, hdstN⟩ := hsimple
  unfold transStep at hstep
  by_cases hskip : ignoreSkip tr = true
  · rw [if_pos hskip] at hstep
    cases hstep
    exact hb
  · rw [if_neg hskip] at hstep
    cases hsrcEq : srcOf tr with
    | none =>
      rw [hsrcEq] at hstep
      simp only [Option.elim_none] at hstep
      cases hstep
      exact hb
    | some src =>
      rw [hsrcEq] at hstep
      simp only [Option.elim_some] at hstep
      cases htgtEq : tgtOf tr with
      | none =>
        rw [htgtEq] at hstep
        simp only [Option.elim_none] at hstep
        cases hstep
        exact hb
      | some tgt =>
        rw [htgtEq] at hstep
        simp only [Option.elim_some] at hstep
        unfold transResolve at hstep
        cases hsrep : dlookup rm src with
        | none =>
          rw [hsrep] at hstep
          simp only [Option.elim_none] at hstep
          cases hstep
        | some srep =>
          rw [hsrep] at hstep
          simp only [Option.elim_some] at hstep
          cases htrep : dlookup rm tgt with
          | none =>
            rw [htrep] at hstep
            simp only [Option.elim_none] at hstep
            cases hstep
          | some trep =>
            rw [htrep] at hstep
            simp only [Option.elim_some] at hstep
            by_cases hdup : b.any (fun q => q.1 = (srep, trep, lblOf tr)) = true
            · rw [if_pos hdup] at hstep
              cases hstep
              exact hb
            · rw [if_neg hdup] at hstep
              have hsrcA : tr.atSource = some src ∧ src ≠ "" := by
                apply pyOr_none_some
                rw [← hsrcEq]
                unfold srcOf
                rw [hsrcN]
                rfl
              have htgtA : tr.atDestination = some tgt ∧ tgt ≠ "" := by
                apply pyOr_none_some
                rw [← htgtEq]
                unfold tgtOf
                rw [htgtN, htgtN2, hdstN]
                rfl
              have hps : patchSrc tr srep = .ok { tr with atSource := some srep } := by
                unfold patchSrc
                rw [if_pos (by rw [hsrcA.1]; rfl)]
              have hpt : patchTgt { tr with atSource := some srep } trep =
                  .ok { tr with atSource := some srep, atDestination := some trep } := by
                unfold patchTgt
                rw [if_neg (by simp [htgtN]), if_pos (by simp [htgtA.1])]
              rw [hps, except_ok_bind, hpt, except_ok_bind] at hstep
              cases hstep
              intro q hq
              rcases List.mem_append.mp hq with hq | hq
              · exact hb q hq
              · have hq : q = ((srep, trep, lblOf tr),
                    { tr with atSource := some srep, atDestination := some trep }) := by
                  simpa using hq
                rw [hq]
                refine ⟨⟨srep, rfl, ?_⟩, ⟨trep, rfl, ?_⟩, ?_⟩
                · exact ⟨src, dlookup_mem hsrep⟩
                · exact ⟨tgt, dlookup_mem htrep⟩
                · exact htgtN

lemma mem_addSet_self (s : List String) (v : String) : v ∈ addSet s v := by
  unfold addSet
  by_cases h : s.contains v
  · rw [if_pos h]
    exact List.mem_of_elem_eq_true h
  · rw [if_neg h]
    exact List.mem_append_right _ (by simp)

lemma mem_addSet_mono {s : List String} {v : String} (h : v ∈ s) (w : String) :
    v ∈ addSet s w := by
  unfold addSet
  by_cases hc : s.contains w
  · rw [if_pos hc]; exact h
  · rw [if_neg hc]; exact List.mem_append_left _ h

lemma mem_collectStep_mono {s : List String} {v : String} (h : v ∈ s)
    (t : XTrans) : v ∈ collectStep s t := by
  unfold collectStep
  have h1 : v ∈ (match t.atSource with
      | some w => if w ≠ "" then addSet s w else s
      | none => s) := by
    cases t.atSource with
    | none => exact h
    | some w =>
      by_cases hw : w ≠ ""
      · simp only [if_pos hw]; exact mem_addSet_mono h w
      · simp only [if_neg hw]; exact h
  cases t.atDestination with
  | none => exact h1
  | some w =>
    by_cases hw : w ≠ ""
    · simp only [if_pos hw]; exact mem_addSet_mono h1 w
    · simp only [if_neg hw]; exact h1

lemma mem_collectStep_src {s : List String} {t : XTrans} {v : String}
    (hv : t.atSource = some v) (hne : v ≠ "") : v ∈ collectStep s t := by
  unfold collectStep
  have h1 : v ∈ (match t.atSource with
      | some w => if w ≠ "" then addSet s w else s
      | none => s) := by
    rw [hv]
    simp only [if_pos hne]
    exact mem_addSet_self s v
  cases t.atDestination with
  | none => exact h1
  | some w =>
    by_cases hw : w ≠ ""
    · simp only [if_pos hw]; exact mem_addSet_mono h1 w
    · simp only [if_neg hw]; exact h1

lemma mem_collectStep_dst {s : List String} {t : XTrans} {v : String}
    (hv : t.atDestination = some v) (hne : v ≠ "") : v ∈ collectStep s t := by
  unfold collectStep
  rw [hv]
  simp only [if_pos hne]
  apply mem_addSet_self

lemma mem_collectEndpoints {trs : List XTrans} {t : XTrans} {v : String}
    (ht : t ∈ trs)
    (hv : (t.atSource = some v ∨ t.atDestination = some v) ∧ v ≠ "") :
    v ∈ collectEndpoints trs := by
  unfold collectEndpoints
  suffices h : ∀ (l : List XTrans) (acc : List String),
      (t ∈ l ∨ v ∈ acc) → v ∈ l.foldl collectStep acc by
    exact h trs [] (Or.inl ht)
  intro l
  induction l with
  | nil =>
    intro acc hd
    rcases hd with hd | hd
    · exact absurd hd (List.not_mem_nil _)
    · simpa using hd
  | cons t0 rest ih =>
    intro acc hd
    simp only [List.foldl_cons]
    rcases hd with hd | hd
    · rcases List.mem_cons.mp hd with he | hmem
      · refine ih _ (Or.inr ?_)
        rw [← he]
        rcases hv.1 with h1 | h1
        · exact mem_collectStep_src h1 hv.2
        · exact mem_collectStep_dst h1 hv.2
      · exact ih _ (Or.inl hmem)
    · exact ih _ (Or.inr (mem_collectStep_mono hd t0))

lemma mem_insertSorted {a x : String} {l : List String} :
    a ∈ insertSorted x l ↔ a = x ∨ a ∈ l := by
  induction l with
  | nil => simp [insertSorted]
  | cons y ys ih =>
    unfold insertSorted
    by_cases h : strLe x y = true
    · rw [if_pos h]
      simp
    · rw [if_neg h]
      simp only [List.mem_cons, ih]
      tauto

lemma mem_sortStrs {a : String} {l : List String} :
    a ∈ sortStrs l ↔ a ∈ l := by
  induction l with
  | nil => simp [sortStrs]
  | cons x xs ih =>
    unfold sortStrs
    rw [mem_insertSorted, ih]
    simp

lemma stateMappingAux_lookup {l : List String} {v : String} (h : v ∈ l) :
    ∀ i : Nat, ∃ nid, dlookup (stateMappingAux i l) v = some nid := by
  induction l with
  | nil => exact absurd h (List.not_mem_nil _)
  | cons x rest ih =>
    intro i
    by_cases hx : x = v
    · refine ⟨natDecimal (i + 1) ++ "_0", ?_⟩
      unfold stateMappingAux dlookup
      rw [List.find?_cons_of_pos _ (by simp [hx])]
      rfl
    · rcases List.mem_cons.mp h with he | hmem
      · exact absurd he.symm hx
      · rcases ih hmem (i + 1) with ⟨nid, hnid⟩
        refine ⟨nid, ?_⟩
        unfold stateMappingAux dlookup
        rw [List.find?_cons_of_neg _ (by simp [hx])]
        unfold dlookup at hnid
        exact hnid

lemma renumberOne_eq (mapping : List (String × String)) (t1 : XTrans)
    {s d : String} (hs : t1.atSource = some s) (hd : t1.atDestination = some d) :
    renumberOne mapping t1 =
      { t1 with atSource := some ((dlookup mapping s).getD s),
                atDestination := some ((dlookup mapping d).getD d) } := by
  unfold renumberOne
  rw [hs]
  dsimp only
  rw [hd]

/-- Renumbering leaves the id of a mapped state equal to its mapped
value: the renamed state produced from a merged entry whose id is in the
mapping. -/
lemma renumberStates_mem {mapping : List (String × String)}
    {merged : List (String × XState)} {k nid : String} {st : XState}
    (hmem : (k, st) ∈ merged) (hid : st.id = k)
    (hmap : dlookup mapping k = some nid) :
    ∃ st2 ∈ renumberStates mapping merged, st2.id = nid := by
  refine ⟨({ id := nid } : XState), ?_, rfl⟩
  unfold renumberStates
  have := List.mem_map_of_mem (fun q : String × XState =>
    match dlookup mapping q.2.id with
    | some nid => ({ id := nid } : XState)
    | none => q.2) hmem
  simpa [hid, hmap] using this

/-- C5 (amended): provided every input transition addresses its
endpoints through the "@source" / "@destination" attributes (no
"@target" and no nested endpoint nodes) and the classes give a
well-formed representative map (every mapped representative maps to
itself, as the class construction of step 4 produces), a successful
quotient has no dangling references: every endpoint id ("@source",
"@destination", or "@target") of every output transition is the id of a
state in the output state list.  Inputs using "@target" or nested nodes
escape the renumbering and can dangle (see the counterexample). -/
theorem quotient_no_dangling_src_dst :
    ∀ (states : List XState) (transitions : List XTrans)
      (classes : List (List String)) (rm : List (String × String))
      (sts : List XState) (trs : List XTrans),
      (∀ t ∈ transitions, t.source = none ∧ t.atTarget = none ∧
        t.target = none ∧ t.destination = none) →
      buildRepMap classes = .ok rm →
      (∀ p ∈ rm, dlookup rm p.2 = some p.2) →
      merge_shift_equivalent states transitions classes = .ok (sts, trs) →
      ∀ t ∈ trs, ∀ v,
        (t.atSource = some v ∨ t.atDestination = some v ∨ t.atTarget = some v) →
        ∃ st ∈ sts, st.id = v := by
  intro states transitions classes rm sts trs hsimple hrm hidem hok t ht v hv
  unfold merge_shift_equivalent at hok
  rw [hrm, except_ok_bind] at hok
  cases hms : buildMergedStates rm (states.foldl (fun m st => dinsert m st.id st) []) with
  | error e => rw [hms, except_error_bind] at hok; cases hok
  | ok merged =>
    rw [hms, except_ok_bind] at hok
    cases hfold : transitions.foldlM (transStep rm) [] with
    | error e => rw [hfold, except_error_bind] at hok; cases hok
    | ok uniq =>
      rw [hfold] at hok
      have hok2 : (renumberStates (endpointMapping (uniq.map (fun q => q.2))) merged,
          renumberTrans (endpointMapping (uniq.map (fun q => q.2)))
            (uniq.map (fun q => q.2))) = (sts, trs) := by
        cases hok
        rfl
      have hsts : sts = renumberStates (endpointMapping (uniq.map (fun q => q.2))) merged :=
        ((Prod.mk.injEq ..).mp hok2).1.symm
      have htrs : trs = renumberTrans (endpointMapping (uniq.map (fun q => q.2)))
          (uniq.map (fun q => q.2)) :=
        ((Prod.mk.injEq ..).mp hok2).2.symm
      -- the invariant on the rewired transitions
      have hinv : UniqInv rm uniq :=
        foldlM_except_invariant (transStep rm) (UniqInv rm) transitions
          (fun b a ha hb b2 hstep =>
            transStep_preserves_inv (hsimple a ha) hb hstep)
          [] uniq (fun q hq => absurd hq (List.not_mem_nil _)) hfold
      -- unpack the output transition
      rw [htrs] at ht
      unfold renumberTrans at ht
      rcases List.mem_map.mp ht with ⟨t1, ht1, hteq⟩
      rcases List.mem_map.mp ht1 with ⟨q, hq, hqeq⟩
      rcases hinv q hq with ⟨⟨s, hsA, ks, hks⟩, ⟨d, hdA, kd, hkd⟩, htgtN⟩
      have hsA1 : t1.atSource = some s := by rw [← hqeq]; exact hsA
      have hdA1 : t1.atDestination = some d := by rw [← hqeq]; exact hdA
      have htgtN1 : t1.atTarget = none := by rw [← hqeq]; exact htgtN
      -- representatives are nonempty and idempotent
      have hsne : s ≠ "" := buildRepMap_values_ne_empty hrm (ks, s) hks
      have hdne : d ≠ "" := buildRepMap_values_ne_empty hrm (kd, d) hkd
      have hsidem : dlookup rm s = some s := hidem (ks, s) hks
      have hdidem : dlookup rm d = some d := hidem (kd, d) hkd
      -- both endpoints are collected, sorted and mapped
      have hscol : s ∈ collectEndpoints (uniq.map (fun q => q.2)) :=
        mem_collectEndpoints ht1 ⟨Or.inl hsA1, hsne⟩
      have hdcol : d ∈ collectEndpoints (uniq.map (fun q => q.2)) :=
        mem_collectEndpoints ht1 ⟨Or.inr hdA1, hdne⟩
      rcases stateMappingAux_lookup (mem_sortStrs.mpr hscol) 0 with ⟨nids, hnids⟩
      rcases stateMappingAux_lookup (mem_sortStrs.mpr hdcol) 0 with ⟨nidd, hnidd⟩
      have hnids' : dlookup (endpointMapping (uniq.map (fun q => q.2))) s = some nids :=
        hnids
      have hnidd' : dlookup (endpointMapping (uniq.map (fun q => q.2))) d = some nidd :=
        hnidd
      -- shape of the renumbered transition
      have hteq2 : t = { t1 with atSource := some nids, atDestination := some nidd } := by
        rw [← hteq, renumberOne_eq _ t1 hsA1 hdA1, hnids', hnidd']
        rfl
      -- the merged state behind each endpoint
      have hidfun := id_to_state_id states
      have hmem_s : ∃ st, dlookup merged s = some st ∧ st.id = s :=
        buildMergedStates_mem hidfun hms (dlookup_mem hsidem)
      have hmem_d : ∃ st, dlookup merged d = some st ∧ st.id = d :=
        buildMergedStates_mem hidfun hms (dlookup_mem hdidem)
      -- discharge the three endpoint cases
      rcases hv with hv | hv | hv
      · rcases hmem_s with ⟨st, hlook, hstid⟩
        have hvs : v = nids := by
          rw [hteq2] at hv
          exact (Option.some.inj hv).symm
        rw [hsts, hvs]
        exact renumberStates_mem (dlookup_mem hlook) hstid hnids'
      · rcases hmem_d with ⟨st, hlook, hstid⟩
        have hvd : v = nidd := by
          rw [hteq2] at hv
          exact (Option.some.inj hv).symm
        rw [hsts, hvd]
        exact renumberStates_mem (dlookup_mem hlook) hstid hnidd'
      · exfalso
        rw [hteq2] at hv
        have : t1.atTarget = some v := hv
        rw [htgtN1] at this
        cases this

/-- Witness for the amended C5 theorem: on an attribute-addressed input
with two singleton classes, both renumbered endpoints resolve to output
states. -/
theorem quotient_no_dangling_src_dst_witness :
    (∀ t ∈ [srcDstTrans], t.source = none ∧ t.atTarget = none ∧
      t.target = none ∧ t.destination = none) ∧
    buildRepMap [["a"], ["b"]] = .ok [("a", "a"), ("b", "b")] ∧
    (∀ p ∈ [("a", "a"), ("b", "b")],
      dlookup [("a", "a"), ("b", "b")] p.2 = some p.2) ∧
    merge_shift_equivalent [⟨"a"⟩, ⟨"b"⟩] [srcDstTrans] [["a"], ["b"]] =
      .ok ([⟨"1_0"⟩, ⟨"2_0"⟩],
        [⟨some "1_0", none, none, some "2_0", none, none, some "l1",
            none, none, none, none⟩]) ∧
    (∃ st ∈ [(⟨"1_0"⟩ : XState), ⟨"2_0"⟩], st.id = "1_0") :=
  ⟨by decide, by decide, by decide, by decide,
   quotient_no_dangling_src_dst [⟨"a"⟩, ⟨"b"⟩] [srcDstTrans] [["a"], ["b"]]
     [("a", "a"), ("b", "b")] [⟨"1_0"⟩, ⟨"2_0"⟩]
     [⟨some "1_0", none, none, some "2_0", none, none, some "l1",
        none, none, none, none⟩]
     (by decide) (by decide) (by decide) (by decide)
     ⟨some "1_0", none, none, some "2_0", none, none, some "l1",
        none, none, none, none⟩ (by decide) "1_0" (Or.inl (by decide))⟩

end MergeClaimFive

section AccumulatorModel

/-- A transition of the `.aut` model: `(source, label, destination)`. -/
abbrev Tr := String × String × String

/-- The in-memory LTS consumed by `accumulate_time_edges`: after parsing,
`initial` is always set. -/
structure AutLts where
  initial : String
  transitions : List Tr
deriving DecidableEq

/-- Drop leading Python whitespace. -/
def dropWs (cs : List Char) : List Char := cs.dropWhile (fun c => pyWs c)

/-- Numeric value of a nonempty ASCII digit string (`int` of the regex
group). -/
def digitsToNat (ds : List Char) : Nat :=
  ds.foldl (fun a c => a * 10 + (c.toNat - 48)) 0

/-- The `time` word of `_time_re`, case-insensitive: consume it and
return the remainder. -/
def stripTimeWord : List Char → Option (List Char)
  | t :: i :: m :: e :: rest =>
    if t.toLower = 't' ∧ i.toLower = 'i' ∧ m.toLower = 'm' ∧ e.toLower = 'e' then
      some rest
    else none
  | _ => none

/-- The `\+\=` part of `_time_re`: consume "+=" and return the
remainder. -/
def stripPlusEq : List Char → Option (List Char)
  | '+' :: '=' :: r => some r
  | _ => none

/-- The `(\d+)\s*$` part of `_time_re`: at least one digit, then only
whitespace to the end; on success, the numeric value of the digits. -/
def readWeight (r3 : List Char) : Option Nat :=
  if (r3.takeWhile (fun c => c.isDigit)).isEmpty then none
  else if (dropWs (r3.dropWhile (fun c => c.isDigit))).isEmpty then
    some (digitsToNat (r3.takeWhile (fun c => c.isDigit)))
  else none

/-- Embedding of the `_time_re` match on a character list:
`^\s*time\s*\+\=\s*(\d+)\s*$`, case-insensitive on "time"
(ASCII whitespace and digits; the regex's Unicode classes beyond ASCII
are not modelled). -/
def is_time_chars (cs : List Char) : Option Nat :=
  (stripTimeWord (dropWs cs)).bind (fun rest =>
    (stripPlusEq (dropWs rest)).bind (fun r2 => readWeight (dropWs r2)))

/-- Embedding of `_is_time(label)` from `time_accumulator.py`: the
weight of a time-advance label, `None` otherwise. -/
def is_time (label : String) : Option Nat := is_time_chars label.toList

/-- One saturation round over all edges: add every target whose source
is already reached. -/
def reachStep (edges : List Tr) (seen : List String) : List String :=
  edges.foldl (fun acc e =>
    if acc.contains e.1 ∧ ¬ acc.contains e.2.2 then acc ++ [e.2.2] else acc) seen

/-- Iterated saturation. -/
def reachIter : Nat → List Tr → List String → List String
  | 0, _, seen => seen
  | n + 1, edges, seen => reachIter n edges (reachStep edges seen)

/-- Embedding of `reachable_from(initial, edges)`: the set of states
reachable from `initial` over all edges.  The source computes it by
stack-based DFS; here it is computed by saturation, which yields the
same set — `edges.length` rounds suffice because every round before the
fixpoint adds at least one node and only edge targets can ever be
added. -/
def reachable_from (initial : String) (edges : List Tr) : List String :=
  reachIter edges.length edges [initial]

/-- Append to a `dict.setdefault(key, []).append(x)` grouping. -/
def addToGroup {α : Type} (m : List (String × List α)) (k : String) (x : α) :
    List (String × List α) :=
  if m.any (fun p => p.1 = k) then
    m.map (fun p => if p.1 = k then (p.1, p.2 ++ [x]) else p)
  else m ++ [(k, [x])]

/-- `dict.get(key, [])` on a grouping. -/
def groupGet {α : Type} (m : List (String × List α)) (k : String) : List α :=
  (dlookup m k).getD []

/-- The `time_out` dict of `accumulate_time_edges`: per source state,
the `(weight, target)` pairs of its outgoing time edges, in input
order. -/
def time_out (trs : List Tr) : List (String × List (Nat × String)) :=
  trs.foldl (fun m e =>
    match is_time e.2.1 with
    | some n => addToGroup m e.1 (n, e.2.2)
    | none => m) []

/-- `time_in_count[v] = time_in_count.get(v, 0) + 1`. -/
def bumpCount (m : List (String × Nat)) (k : String) : List (String × Nat) :=
  dinsert m k ((dlookup m k).getD 0 + 1)

/-- The `time_in_count` dict: incoming time-edge counts. -/
def time_in_count (trs : List Tr) : List (String × Nat) :=
  trs.foldl (fun m e =>
    if (is_time e.2.1).isSome then bumpCount m e.2.2 else m) []

/-- `dict.get(key, 0)` on a counter. -/
def countGet (m : List (String × Nat)) (k : String) : Nat :=
  (dlookup m k).getD 0

/-- `dict.setdefault(key, v)`. -/
def setDefault (m : List (String × Nat)) (k : String) (v : Nat) :
    List (String × Nat) :=
  if m.any (fun p => p.1 = k) then m else m ++ [(k, v)]

/-- The `time_src_order` dict: for each time-edge source, the index of
its first outgoing time edge in the input. -/
def time_src_order_aux : Nat → List Tr → List (String × Nat) → List (String × Nat)
  | _, [], m => m
  | i, e :: rest, m =>
    time_src_order_aux (i + 1) rest
      (if (is_time e.2.1).isSome then setDefault m e.1 i else m)

/-- The `time_src_order` dict over the whole enumerated transition
list. -/
def time_src_order (trs : List Tr) : List (String × Nat) :=
  time_src_order_aux 0 trs []

/-- The `non_time_in_from` dict: per target state, the sources of its
incoming non-time edges. -/
def non_time_in_from (trs : List Tr) : List (String × List String) :=
  trs.foldl (fun m e =>
    if (is_time e.2.1).isNone then addToGroup m e.2.2 e.1 else m) []

/-- The `non_time_edges` list: the non-time edges in input order. -/
def non_time_edges (trs : List Tr) : List Tr :=
  trs.foldl (fun acc e => if (is_time e.2.1).isNone then acc ++ [e] else acc) []

/-- Stable insertion into a list sorted by a natural-number key. -/
def insertByKeyNat (key : String → Nat) (x : String) : List String → List String
  | [] => [x]
  | y :: ys => if key x ≤ key y then x :: y :: ys else y :: insertByKeyNat key x ys

/-- Python's stable `list.sort(key=...)`, embedded as stable insertion
sort. -/
def sortByKeyNat (key : String → Nat) : List String → List String
  | [] => []
  | x :: xs => insertByKeyNat key x (sortByKeyNat key xs)

/-- The per-key entry test of `accumulate_time_edges`: reachable, and
the initial state / incoming non-time edge from a reachable state / no
incoming time edge.  (The source computes `reach` once; recomputing the
same pure value here is equivalent.) -/
def entryCond (lts : AutLts) (u : String) : Bool :=
  (reachable_from lts.initial lts.transitions).contains u &&
  (decide (u = lts.initial) ||
   (groupGet (non_time_in_from lts.transitions) u).any
     (fun q => (reachable_from lts.initial lts.transitions).contains q) ||
   decide (countGet (time_in_count lts.transitions) u = 0))

/-- The entry-state computation of `accumulate_time_edges`: the keys of
`time_out` passing `entryCond`, sorted by first-time-edge index. -/
def entriesOf (lts : AutLts) : List String :=
  sortByKeyNat
    (fun u => (dlookup (time_src_order lts.transitions) u).getD 1000000)
    ((time_out lts.transitions).foldl
      (fun es p => if entryCond lts p.1 then es ++ [p.1] else es) [])

/-- An accumulated time edge `(start, sum, terminal)`. -/
abbrev Triple := String × Nat × String

/-- Embedding of the nested `dfs` of `accumulate_time_edges`: follow
time edges only, skip continuations into nodes already on the current
path, and at a node with no outgoing time edges record
`(start, acc, node)` once (`node != start`, first occurrence wins).
`fuel` bounds the recursion depth; every recursive call adds a fresh
node to the path, so a fuel of `transitions.length + 1` (as passed by
`new_time_edges`) is never exhausted and the fuel-0 branch is
unreachable. -/
def dfs (tout : List (String × List (Nat × String))) :
    Nat → String → String → Nat → List String → List Triple → List Triple
  | 0, _, _, _, _, triples => triples
  | fuel + 1, start, node, acc, seenN, triples =>
    if (groupGet tout node).isEmpty then
      if node ≠ start ∧ ¬ triples.contains (start, acc, node) then
        triples ++ [(start, acc, node)]
      else triples
    else
      (groupGet tout node).foldl (fun tr p =>
        if seenN.contains p.2 then tr
        else dfs tout fuel start p.2 (acc + p.1) (seenN ++ [p.2]) tr) triples

/-- The `new_time_edges_list` produced by running the DFS from every
entry state, in discovery order. -/
def new_time_edges (lts : AutLts) : List Triple :=
  (entriesOf lts).foldl (fun tr u =>
    (groupGet (time_out lts.transitions) u).foldl (fun tr2 p =>
      dfs (time_out lts.transitions) (lts.transitions.length + 1) u p.2 p.1
        [u, p.2] tr2) tr) []

/-- Embedding of `accumulate_time_edges(lts)`: the non-time edges in
input order, followed by the accumulated time edges re-labelled
`f"time +={w}"`. -/
def accumulate_time_edges (lts : AutLts) : List Tr :=
  non_time_edges lts.transitions ++
  (new_time_edges lts).map (fun p => (p.1, "time +=" ++ natDecimal p.2.1, p.2.2))

/-- Definition following the spec's wording for the claimed entry set,
as the claim states it (C6): a reachable state that is the initial
state, or has an incoming non-time edge from a reachable state, or has
zero incoming time edges — with **no** requirement of an outgoing time
edge. -/
def spec_entry_claimed (lts : AutLts) (u : String) : Bool :=
  (reachable_from lts.initial lts.transitions).contains u &&
  (decide (u = lts.initial) ||
   lts.transitions.any (fun e => decide (e.2.2 = u) && (is_time e.2.1).isNone &&
     (reachable_from lts.initial lts.transitions).contains e.1) ||
   ! lts.transitions.any (fun e => decide (e.2.2 = u) && (is_time e.2.1).isSome))

/-- Definition following the spec's wording, amended with the condition
the code actually imposes: the state must in addition have at least one
outgoing time edge (only `time_out` keys are considered). -/
def spec_entry (lts : AutLts) (u : String) : Bool :=
  (reachable_from lts.initial lts.transitions).contains u &&
  lts.transitions.any (fun e => decide (e.1 = u) && (is_time e.2.1).isSome) &&
  (decide (u = lts.initial) ||
   lts.transitions.any (fun e => decide (e.2.2 = u) && (is_time e.2.1).isNone &&
     (reachable_from lts.initial lts.transitions).contains e.1) ||
   ! lts.transitions.any (fun e => decide (e.2.2 = u) && (is_time e.2.1).isSome))

end AccumulatorModel

section AccumulatorLemmasClaimSix

lemma keys_map_preserve {α : Type} (f : String × List α → String × List α)
    (hf : ∀ p, (f p).1 = p.1) (m : List (String × List α)) :
    (m.map f).map Prod.fst = m.map Prod.fst := by
  induction m with
  | nil => rfl
  | cons p rest ih => simp [hf, ih]

lemma keys_addToGroup {α : Type} {m : List (String × List α)} {k u : String}
    {x : α} :
    u ∈ (addToGroup m k x).map Prod.fst ↔ u ∈ m.map Prod.fst ∨ u = k := by
  unfold addToGroup
  by_cases hany : m.any (fun p => p.1 = k)
  · rw [if_pos hany]
    rw [keys_map_preserve _ (fun p => by by_cases hpk : p.1 = k <;> simp [hpk])]
    have hk : k ∈ m.map Prod.fst := by
      rw [List.any_eq_true] at hany
      rcases hany with ⟨p, hp, hpk⟩
      simp only [decide_eq_true_eq] at hpk
      exact hpk ▸ List.mem_map_of_mem Prod.fst hp
    constructor
    · exact Or.inl
    · rintro (h | h)
      · exact h
      · exact h ▸ hk
  · rw [if_neg hany]
    rw [List.map_append, List.mem_append]
    simp

lemma time_out_keys_iff {trs : List Tr} {u : String} :
    u ∈ (time_out trs).map Prod.fst ↔
      ∃ e ∈ trs, e.1 = u ∧ (is_time e.2.1).isSome = true := by
  unfold time_out
  suffices h : ∀ (l : List Tr) (acc : List (String × List (Nat × String))),
      u ∈ (l.foldl (fun m e => match is_time e.2.1 with
        | some n => addToGroup m e.1 (n, e.2.2)
        | none => m) acc).map Prod.fst ↔
        u ∈ acc.map Prod.fst ∨ ∃ e ∈ l, e.1 = u ∧ (is_time e.2.1).isSome = true by
    rw [h trs []]
    simp
  intro l
  induction l with
  | nil => intro acc; simp
  | cons e rest ih =>
    intro acc
    rw [List.foldl_cons]
    cases hit : is_time e.2.1 with
    | some n =>
      rw [ih]
      simp only [hit]
      rw [keys_addToGroup]
      constructor
      · rintro ((h | h) | h)
        · exact Or.inl h
        · exact Or.inr ⟨e, by simp, h.symm, by simp [hit]⟩
        · rcases h with ⟨e', he', hp⟩
          exact Or.inr ⟨e', by simp [he'], hp⟩
      · rintro (h | ⟨e', he', hp⟩)
        · exact Or.inl (Or.inl h)
        · rcases List.mem_cons.mp he' with he2 | he2
          · exact Or.inl (Or.inr (by rw [← he2]; exact hp.1.symm))
          · exact Or.inr ⟨e', he2, hp⟩
    | none =>
      rw [ih]
      simp only [hit]
      constructor
      · rintro (h | ⟨e', he', hp⟩)
        · exact Or.inl h
        · exact Or.inr ⟨e', by simp [he'], hp⟩
      · rintro (h | ⟨e', he', hp⟩)
        · exact Or.inl h
        · rcases List.mem_cons.mp he' with he2 | he2
          · exfalso
            rw [he2, hit] at hp
            simp at hp
          · exact Or.inr ⟨e', he2, hp⟩

lemma groupGet_addToGroup_self {α : Type} (m : List (String × List α))
    (k : String) (x : α) :
    groupGet (addToGroup m k x) k = groupGet m k ++ [x] := by
  unfold addToGroup
  by_cases hany : m.any (fun p => p.1 = k)
  · rw [if_pos hany]
    induction m with
    | nil => simp at hany
    | cons p rest ih =>
      by_cases hpk : p.1 = k
      · unfold groupGet dlookup
        simp only [List.map_cons, if_pos hpk]
        rw [List.find?_cons_of_pos _ (by simp [hpk]),
          List.find?_cons_of_pos _ (by simp [hpk])]
        simp
      · have hrest : rest.any (fun p => p.1 = k) := by
          simp only [List.any_cons, decide_eq_true_eq] at hany
          rcases Bool.or_eq_true .. ▸ hany with h | h
          · exact absurd (by simpa using h) hpk
          · exact h
        have := ih hrest
        unfold groupGet dlookup at this ⊢
        simp only [List.map_cons, if_neg hpk]
        rw [List.find?_cons_of_neg _ (by simp [hpk]),
          List.find?_cons_of_neg _ (by simp [hpk])]
        exact this
  · rw [if_neg hany]
    have hnone : m.find? (fun p => p.1 = k) = none := by
      rw [List.find?_eq_none]
      intro p hp
      simp only [decide_eq_true_eq]
      intro he
      exact hany (by rw [List.any_eq_true]; exact ⟨p, hp, by simp [he]⟩)
    unfold groupGet dlookup
    rw [List.find?_append, hnone]
    simp [List.find?]

lemma groupGet_addToGroup_ne {α : Type} (m : List (String × List α))
    {k k' : String} (x : α) (h : k' ≠ k) :
    groupGet (addToGroup m k x) k' = groupGet m k' := by
  unfold addToGroup
  by_cases hany : m.any (fun p => p.1 = k)
  · rw [if_pos hany]
    clear hany
    induction m with
    | nil => rfl
    | cons p rest ih =>
      by_cases hpk : p.1 = k
      · unfold groupGet dlookup
        simp only [List.map_cons, if_pos hpk]
        rw [List.find?_cons_of_neg _ (by simp [hpk ▸ Ne.symm h]),
          List.find?_cons_of_neg _ (by simp [hpk, Ne.symm h])]
        exact ih
      · by_cases hpk' : p.1 = k'
        · unfold groupGet dlookup
          simp only [List.map_cons, if_neg hpk]
          rw [List.find?_cons_of_pos _ (by simp [hpk']),
            List.find?_cons_of_pos _ (by simp [hpk'])]
        · unfold groupGet dlookup
          simp only [List.map_cons, if_neg hpk]
          rw [List.find?_cons_of_neg _ (by simp [hpk']),
            List.find?_cons_of_neg _ (by simp [hpk'])]
          exact ih
  · rw [if_neg hany]
    unfold groupGet dlookup
    rw [List.find?_append]
    cases hm : m.find? (fun p => p.1 = k') with
    | some p => simp
    | none =>
      simp only [Option.none_or]
      rw [List.find?_cons_of_neg _ (by simp [Ne.symm h])]
      simp [List.find?]

lemma groupGet_non_time_in_from {trs : List Tr} {u : String} :
    groupGet (non_time_in_from trs) u =
      trs.filterMap (fun e =>
        if e.2.2 = u ∧ (is_time e.2.1).isNone = true then some e.1 else none) := by
  unfold non_time_in_from
  suffices h : ∀ (l : List Tr) (acc : List (String × List String)),
      groupGet (l.foldl (fun m e =>
        if (is_time e.2.1).isNone = true then addToGroup m e.2.2 e.1 else m) acc) u =
      groupGet acc u ++ l.filterMap (fun e =>
        if e.2.2 = u ∧ (is_time e.2.1).isNone = true then some e.1 else none) by
    rw [h trs []]
    rfl
  intro l
  induction l with
  | nil => intro acc; simp
  | cons e rest ih =>
    intro acc
    rw [List.foldl_cons, ih, List.filterMap_cons]
    by_cases hnt : (is_time e.2.1).isNone = true
    · rw [if_pos hnt]
      by_cases heu : e.2.2 = u
      · rw [heu, groupGet_addToGroup_self, if_pos ⟨rfl, hnt⟩]
        simp
      · rw [groupGet_addToGroup_ne _ _ (fun hc => heu hc.symm),
          if_neg (fun hc => heu hc.1)]
    · rw [if_neg hnt, if_neg (fun hc => hnt hc.2)]

lemma groupGet_time_out {trs : List Tr} {u : String} :
    groupGet (time_out trs) u =
      trs.filterMap (fun e =>
        if e.1 = u then (is_time e.2.1).map (fun n => (n, e.2.2)) else none) := by
  unfold time_out
  suffices h : ∀ (l : List Tr) (acc : List (String × List (Nat × String))),
      groupGet (l.foldl (fun m e => match is_time e.2.1 with
        | some n => addToGroup m e.1 (n, e.2.2)
        | none => m) acc) u =
      groupGet acc u ++ l.filterMap (fun e =>
        if e.1 = u then (is_time e.2.1).map (fun n => (n, e.2.2)) else none) by
    rw [h trs []]
    rfl
  intro l
  induction l with
  | nil => intro acc; simp
  | cons e rest ih =>
    intro acc
    rw [List.foldl_cons, ih, List.filterMap_cons]
    cases hit : is_time e.2.1 with
    | some n =>
      simp only [hit]
      by_cases heu : e.1 = u
      · rw [heu, groupGet_addToGroup_self]
        simp [heu]
      · rw [groupGet_addToGroup_ne _ _ (fun hc => heu hc.symm)]
        simp [heu]
    | none =>
      simp only [hit]
      simp

lemma countGet_bumpCount_self (m : List (String × Nat)) (k : String) :
    countGet (bumpCount m k) k = countGet m k + 1 := by
  unfold countGet bumpCount
  rw [dlookup_dinsert_self]
  rfl

lemma countGet_bumpCount_ne (m : List (String × Nat)) {k k' : String}
    (h : k' ≠ k) : countGet (bumpCount m k) k' = countGet m k' := by
  unfold countGet bumpCount
  rw [dlookup_dinsert_ne _ _ _ _ h]

lemma countGet_time_in_count {trs : List Tr} {u : String} :
    countGet (time_in_count trs) u =
      trs.countP (fun e => decide (e.2.2 = u) && (is_time e.2.1).isSome) := by
  unfold time_in_count
  suffices h : ∀ (l : List Tr) (acc : List (String × Nat)),
      countGet (l.foldl (fun m e =>
        if (is_time e.2.1).isSome = true then bumpCount m e.2.2 else m) acc) u =
      countGet acc u +
        l.countP (fun e => decide (e.2.2 = u) && (is_time e.2.1).isSome) by
    rw [h trs []]
    simp [countGet, dlookup]
  intro l
  induction l with
  | nil => intro acc; simp
  | cons e rest ih =>
    intro acc
    rw [List.foldl_cons, ih, List.countP_cons]
    by_cases hts : (is_time e.2.1).isSome = true
    · rw [if_pos hts]
      by_cases heu : e.2.2 = u
      · rw [heu, countGet_bumpCount_self]
        simp [heu, hts]
        omega
      · rw [countGet_bumpCount_ne _ (fun hc => heu hc.symm)]
        simp [heu]
    · rw [if_neg hts]
      simp [hts]

lemma mem_insertByKeyNat {key : String → Nat} {a x : String} {l : List String} :
    a ∈ insertByKeyNat key x l ↔ a = x ∨ a ∈ l := by
  induction l with
  | nil => simp [insertByKeyNat]
  | cons y ys ih =>
    unfold insertByKeyNat
    by_cases h : key x ≤ key y
    · rw [if_pos h]
      simp
    · rw [if_neg h]
      simp only [List.mem_cons, ih]
      tauto

lemma mem_sortByKeyNat {key : String → Nat} {a : String} {l : List String} :
    a ∈ sortByKeyNat key l ↔ a ∈ l := by
  induction l with
  | nil => simp [sortByKeyNat]
  | cons x xs ih =>
    unfold sortByKeyNat
    rw [mem_insertByKeyNat, ih]
    simp

lemma mem_entriesBase {lts : AutLts} {u : String} :
    u ∈ (time_out lts.transitions).foldl
        (fun es p => if entryCond lts p.1 then es ++ [p.1] else es) [] ↔
      u ∈ (time_out lts.transitions).map Prod.fst ∧ entryCond lts u = true := by
  suffices h : ∀ (l : List (String × List (Nat × String))) (acc : List String),
      u ∈ l.foldl (fun es p => if entryCond lts p.1 then es ++ [p.1] else es) acc ↔
        u ∈ acc ∨ (u ∈ l.map Prod.fst ∧ entryCond lts u = true) by
    rw [h _ []]
    simp
  intro l
  induction l with
  | nil => intro acc; simp
  | cons p rest ih =>
    intro acc
    rw [List.foldl_cons]
    by_cases hc : entryCond lts p.1 = true
    · rw [if_pos hc, ih]
      constructor
      · rintro (hm | hm)
        · rcases List.mem_append.mp hm with hm | hm
          · exact Or.inl hm
          · have : u = p.1 := by simpa using hm
            exact Or.inr ⟨by simp [this], by rw [this]; exact hc⟩
        · exact Or.inr ⟨by simp [hm.1], hm.2⟩
      · rintro (hm | ⟨hm, hcond⟩)
        · exact Or.inl (List.mem_append_left _ hm)
        · rcases List.mem_cons.mp (by simpa using hm : u ∈ p.1 :: rest.map Prod.fst)
            with he | hmem
          · exact Or.inl (List.mem_append_right _ (by simp [he]))
          · exact Or.inr ⟨hmem, hcond⟩
    · rw [if_neg hc, ih]
      constructor
      · rintro (hm | hm)
        · exact Or.inl hm
        · exact Or.inr ⟨by simp [hm.1], hm.2⟩
      · rintro (hm | ⟨hm, hcond⟩)
        · exact Or.inl hm
        · rcases List.mem_cons.mp (by simpa using hm : u ∈ p.1 :: rest.map Prod.fst)
            with he | hmem
          · exfalso
            apply hc
            rw [he] at hcond
            exact hcond
          · exact Or.inr ⟨hmem, hcond⟩

end AccumulatorLemmasClaimSix

section ClaimSix

/-- An LTS with a single non-time edge: it has no time edges at all, so
the DFS is started from no state. -/
def noTimeLts : AutLts := ⟨"A", [("A", "x", "B")]⟩

/-- C6 counterexample: the claimed characterization ("reachable and
initial / non-time predecessor / no incoming time edge") holds of state
"A" of `noTimeLts`, yet the accumulator starts its DFS from no state at
all — the claimed set is not exactly the entry set, because the code
additionally requires an outgoing time edge (`time_out.keys()`). -/
theorem entries_claimed_set_mismatch :
    spec_entry_claimed noTimeLts "A" = true ∧ "A" ∉ entriesOf noTimeLts ∧
    entriesOf noTimeLts = [] :=
  ⟨by decide, by decide, by decide⟩

/-- C6 (amended): the set of states from which the accumulation DFS is
started is exactly the set of reachable states that have at least one
outgoing time edge and are the initial state, or have an incoming
non-time edge from a reachable state, or have no incoming time edge. -/
theorem accumulate_entries_characterization :
    ∀ (lts : AutLts) (u : String),
      u ∈ entriesOf lts ↔ spec_entry lts u = true := by
  intro lts u
  unfold entriesOf
  rw [mem_sortByKeyNat, mem_entriesBase, time_out_keys_iff]
  have hsrc : (lts.transitions.any
      (fun e => decide (e.1 = u) && (is_time e.2.1).isSome) = true) ↔
      ∃ e ∈ lts.transitions, e.1 = u ∧ (is_time e.2.1).isSome = true := by
    simp [List.any_eq_true]
  have hmid : ((groupGet (non_time_in_from lts.transitions) u).any
      (fun q => (reachable_from lts.initial lts.transitions).contains q) = true) ↔
      lts.transitions.any (fun e => decide (e.2.2 = u) && (is_time e.2.1).isNone &&
        (reachable_from lts.initial lts.transitions).contains e.1) = true := by
    rw [groupGet_non_time_in_from, List.any_eq_true, List.any_eq_true]
    constructor
    · rintro ⟨q, hq, hcq⟩
      rcases List.mem_filterMap.mp hq with ⟨e, he, hfe⟩
      by_cases hcond : e.2.2 = u ∧ (is_time e.2.1).isNone = true
      · rw [if_pos hcond] at hfe
        injection hfe with hfe
        refine ⟨e, he, ?_⟩
        simp only [Bool.and_eq_true, decide_eq_true_eq]
        exact ⟨⟨hcond.1, hcond.2⟩, by rw [hfe]; exact hcq⟩
      · rw [if_neg hcond] at hfe
        cases hfe
    · rintro ⟨e, he, hp⟩
      simp only [Bool.and_eq_true, decide_eq_true_eq] at hp
      exact ⟨e.1, List.mem_filterMap.mpr
        ⟨e, he, by rw [if_pos ⟨hp.1.1, hp.1.2⟩]⟩, hp.2⟩
  have hcnt : (countGet (time_in_count lts.transitions) u = 0) ↔
      (lts.transitions.any
        (fun e => decide (e.2.2 = u) && (is_time e.2.1).isSome) = false) := by
    rw [countGet_time_in_count, List.countP_eq_zero, List.any_eq_false]
  unfold spec_entry entryCond
  simp only [Bool.and_eq_true, Bool.or_eq_true, Bool.not_eq_true',
    decide_eq_true_eq]
  rw [hsrc, hmid, hcnt]
  tauto

end ClaimSix

section ClaimSeven

/-- A path of time-advance edges of `trs` from a start state to an end
state whose weights sum to the given total (following the spec's
notion of the original path an accumulated edge replaces). -/
inductive TimePath (trs : List Tr) : String → String → Nat → Prop where
  | single {u v : String} {l : String} {n : Nat} :
      (u, l, v) ∈ trs → is_time l = some n → TimePath trs u v n
  | snoc {u v w : String} {l : String} {m n : Nat} :
      TimePath trs u v m → (v, l, w) ∈ trs → is_time l = some n →
      TimePath trs u w (m + n)

/-- A state with no outgoing time-advance edge (a path terminal). -/
def noTimeOut (trs : List Tr) (t : String) : Prop :=
  ∀ e ∈ trs, e.1 = t → is_time e.2.1 = none

lemma foldl_invariant {α β : Type} (f : β → α → β) (Inv : β → Prop)
    (l : List α) (hstep : ∀ b a, a ∈ l → Inv b → Inv (f b a)) :
    ∀ b, Inv b → Inv (l.foldl f b) := by
  induction l with
  | nil => intro b hb; exact hb
  | cons a rest ih =>
    intro b hb
    rw [List.foldl_cons]
    exact ih (fun b' a' ha' => hstep b' a' (by simp [ha'])) _
      (hstep b a (by simp) hb)

lemma mem_time_out_get {trs : List Tr} {u v : String} {n : Nat}
    (h : (n, v) ∈ groupGet (time_out trs) u) :
    ∃ l, (u, l, v) ∈ trs ∧ is_time l = some n := by
  rw [groupGet_time_out] at h
  rcases List.mem_filterMap.mp h with ⟨e, he, hfe⟩
  obtain ⟨a, l, b⟩ := e
  by_cases hau : a = u
  · rw [if_pos hau] at hfe
    cases hit : is_time l with
    | none => rw [hit] at hfe; cases hfe
    | some n' =>
      rw [hit] at hfe
      simp only [Option.map_some'] at hfe
      injection hfe with hfe
      have hn : n' = n := (Prod.mk.injEq ..).mp hfe |>.1
      have hb : b = v := (Prod.mk.injEq ..).mp hfe |>.2
      refine ⟨l, ?_, by rw [hit, hn]⟩
      rw [← hau, ← hb]
      exact he
  · rw [if_neg hau] at hfe
    cases hfe

lemma noTimeOut_of_empty {trs : List Tr} {t : String}
    (h : (groupGet (time_out trs) t).isEmpty = true) : noTimeOut trs t := by
  rw [List.isEmpty_iff, groupGet_time_out, List.filterMap_eq_nil_iff] at h
  intro e he hesrc
  have hfe := h e he
  rw [if_pos hesrc] at hfe
  cases hit : is_time e.2.1 with
  | none => rfl
  | some n => rw [hit] at hfe; simp at hfe

lemma dfs_sound (trs : List Tr) :
    ∀ (fuel : Nat) (start node : String) (acc : Nat) (seenN : List String)
      (triples : List Triple),
      (∀ p ∈ triples, TimePath trs p.1 p.2.2 p.2.1 ∧ noTimeOut trs p.2.2) →
      TimePath trs start node acc →
      ∀ p ∈ dfs (time_out trs) fuel start node acc seenN triples,
        TimePath trs p.1 p.2.2 p.2.1 ∧ noTimeOut trs p.2.2 := by
  intro fuel
  induction fuel with
  | zero =>
    intro start node acc seenN triples hinv hpath p hp
    exact hinv p hp
  | succ fuel ih =>
    intro start node acc seenN triples hinv hpath p hp
    unfold dfs at hp
    by_cases hout : (groupGet (time_out trs) node).isEmpty = true
    · rw [if_pos hout] at hp
      by_cases hadd : node ≠ start ∧ ¬ triples.contains (start, acc, node)
      · rw [if_pos hadd] at hp
        rcases List.mem_append.mp hp with hm | hm
        · exact hinv p hm
        · have hpe : p = (start, acc, node) := by simpa using hm
          rw [hpe]
          exact ⟨hpath, noTimeOut_of_empty hout⟩
      · rw [if_neg hadd] at hp
        exact hinv p hp
    · rw [if_neg hout] at hp
      refine foldl_invariant _
        (fun tr => ∀ q ∈ tr, TimePath trs q.1 q.2.2 q.2.1 ∧ noTimeOut trs q.2.2)
        _ ?_ triples hinv p hp
      intro tr q hq htr
      by_cases hseen : seenN.contains q.2 = true
      · rw [if_pos hseen]
        exact htr
      · rw [if_neg hseen]
        intro p' hp'
        rcases mem_time_out_get hq with ⟨l, hel, hitl⟩
        exact ih start q.2 (acc + q.1) (seenN ++ [q.2]) tr htr
          (TimePath.snoc hpath hel hitl) p' hp'

/-- The spec's Scenario-3 chain. -/
def chainLts : AutLts := ⟨"A", [("A", "time +=2", "B"), ("B", "time +=5", "C")]⟩

/-- C7: every accumulated edge `(entry, w, terminal)` is backed by a
path of time-advance edges of the input from the entry to the terminal,
the terminal has no outgoing time edge, and the path's weights sum to
exactly `w`; in particular the chain `A -(time+=2)-> B -(time+=5)-> C`
accumulates to the single edge `A -(time+=7)-> C` with no edge incident
to `B`. -/
theorem accumulated_edges_sound :
    (∀ (lts : AutLts) (p : Triple), p ∈ new_time_edges lts →
      TimePath lts.transitions p.1 p.2.2 p.2.1 ∧
      noTimeOut lts.transitions p.2.2) ∧
    accumulate_time_edges chainLts = [("A", "time +=7", "C")] := by
  constructor
  · intro lts p hp
    unfold new_time_edges at hp
    refine foldl_invariant _
      (fun tr => ∀ q ∈ tr, TimePath lts.transitions q.1 q.2.2 q.2.1 ∧
        noTimeOut lts.transitions q.2.2) _ ?_ []
      (fun q hq => absurd hq (List.not_mem_nil _)) p hp
    intro tr u _ htr
    refine foldl_invariant _
      (fun tr2 => ∀ q ∈ tr2, TimePath lts.transitions q.1 q.2.2 q.2.1 ∧
        noTimeOut lts.transitions q.2.2) _ ?_ tr htr
    intro tr2 q hq htr2
    intro p' hp'
    rcases mem_time_out_get hq with ⟨l, hel, hitl⟩
    exact dfs_sound lts.transitions (lts.transitions.length + 1) u q.2 q.1
      [u, q.2] tr2 htr2 (TimePath.single hel hitl) p' hp'
  · decide

/-- Witness for C7 at the Scenario-3 chain: the accumulated edge
`(A, 7, C)` is emitted and is backed by a time path of total weight 7
to the terminal `C`. -/
theorem accumulated_edges_sound_witness :
    ("A", 7, "C") ∈ new_time_edges chainLts ∧
    TimePath chainLts.transitions "A" "C" 7 ∧
    noTimeOut chainLts.transitions "C" :=
  ⟨by decide,
   (accumulated_edges_sound.1 chainLts ("A", 7, "C") (by decide)).1,
   (accumulated_edges_sound.1 chainLts ("A", 7, "C") (by decide)).2⟩

end ClaimSeven

section ClaimEight

lemma non_time_edges_eq_filter (trs : List Tr) :
    non_time_edges trs = trs.filter (fun e => (is_time e.2.1).isNone) := by
  unfold non_time_edges
  suffices h : ∀ (l : List Tr) (acc : List Tr),
      l.foldl (fun acc e =>
        if (is_time e.2.1).isNone = true then acc ++ [e] else acc) acc =
      acc ++ l.filter (fun e => (is_time e.2.1).isNone) by
    rw [h trs []]
    rfl
  intro l
  induction l with
  | nil => intro acc; simp
  | cons e rest ih =>
    intro acc
    rw [List.foldl_cons, ih, List.filter_cons]
    by_cases hnt : (is_time e.2.1).isNone = true
    · rw [if_pos hnt, if_pos hnt]
      simp
    · rw [if_neg hnt, if_neg hnt]

/-- C8: the output of `accumulate_time_edges` is exactly the non-time
input edges — unchanged in content and relative order, i.e. the input
list filtered by the time recognizer — followed by the accumulated time
edges in DFS discovery order, each re-labelled `time +={sum}`. -/
theorem accumulate_output_shape :
    ∀ lts : AutLts, accumulate_time_edges lts =
      lts.transitions.filter (fun e => (is_time e.2.1).isNone) ++
      (new_time_edges lts).map
        (fun p => (p.1, "time +=" ++ natDecimal p.2.1, p.2.2)) := by
  intro lts
  unfold accumulate_time_edges
  rw [non_time_edges_eq_filter]

end ClaimEight

section ClaimTen

lemma digitChar10_isDigit {n : Nat} (h : n < 10) :
    (digitChar10 n).isDigit = true := by
  interval_cases n <;> decide

lemma digitChar10_toNat {n : Nat} (h : n < 10) :
    (digitChar10 n).toNat = 48 + n := by
  interval_cases n <;> decide

lemma natDecimalAux_spec :
    ∀ (fuel n : Nat) (acc : List Char), n < fuel →
      ∃ ds, natDecimalAux fuel n acc = ds ++ acc ∧ ds ≠ [] ∧
        (∀ c ∈ ds, c.isDigit = true) ∧
        ∀ v, ds.foldl (fun a c => a * 10 + (c.toNat - 48)) v =
          v * 10 ^ ds.length + n := by
  intro fuel
  induction fuel with
  | zero => intro n acc h; omega
  | succ fuel ih =>
    intro n acc h
    by_cases hn : n < 10
    · refine ⟨[digitChar10 n],
        by unfold natDecimalAux; rw [if_pos hn]; rfl, by simp, ?_, ?_⟩
      · intro c hc
        have : c = digitChar10 n := by simpa using hc
        rw [this]
        exact digitChar10_isDigit hn
      · intro v
        simp only [List.foldl_cons, List.foldl_nil, List.length_cons,
          List.length_nil, pow_one, digitChar10_toNat hn]
        omega
    · have hdiv : n / 10 < n := Nat.div_lt_self (by omega) (by omega)
      have hfuel : n / 10 < fuel := by omega
      rcases ih (n / 10) (digitChar10 (n % 10) :: acc) hfuel with
        ⟨ds', heq, hne, hdig, hval⟩
      refine ⟨ds' ++ [digitChar10 (n % 10)], ?_, by simp, ?_, ?_⟩
      · unfold natDecimalAux
        rw [if_neg hn, heq]
        simp
      · intro c hc
        rcases List.mem_append.mp hc with hc | hc
        · exact hdig c hc
        · have : c = digitChar10 (n % 10) := by simpa using hc
          rw [this]
          exact digitChar10_isDigit (Nat.mod_lt n (by omega))
      · intro v
        rw [List.foldl_append, hval v]
        have hmod : n % 10 < 10 := Nat.mod_lt n (by omega)
        simp only [List.foldl_cons, List.foldl_nil, List.length_append,
          List.length_cons, List.length_nil, digitChar10_toNat hmod]
        have hdm := Nat.div_add_mod n 10
        have hpow : 10 ^ (ds'.length + (0 + 1)) = 10 ^ ds'.length * 10 := by
          rw [pow_succ]
        have hsub : 48 + n % 10 - 48 = n % 10 := by omega
        rw [hsub]
        calc (v * 10 ^ ds'.length + n / 10) * 10 + n % 10
            = v * (10 ^ ds'.length * 10) + (10 * (n / 10) + n % 10) := by ring
          _ = v * 10 ^ (ds'.length + (0 + 1)) + n := by rw [hpow, hdm]

lemma natDecimal_toList_spec (n : Nat) :
    (natDecimal n).toList ≠ [] ∧
    (∀ c ∈ (natDecimal n).toList, c.isDigit = true) ∧
    digitsToNat (natDecimal n).toList = n := by
  rcases natDecimalAux_spec (n + 1) n [] (by omega) with ⟨ds, heq, hne, hdig, hval⟩
  have htl : (natDecimal n).toList = ds := by
    unfold natDecimal
    show natDecimalAux (n + 1) n [] = ds
    rw [heq, List.append_nil]
  refine ⟨by rw [htl]; exact hne, by rw [htl]; exact hdig, ?_⟩
  rw [htl]
  unfold digitsToNat
  rw [hval 0]
  omega

lemma digit_not_pyWs {c : Char} (h : c.isDigit = true) : pyWs c = false := by
  have hno : ¬ (c = ' ' ∨ c = '\t' ∨ c = '\n' ∨ c = '\r' ∨ c = '\x0b' ∨ c = '\x0c') := by
    rintro (rfl | rfl | rfl | rfl | rfl | rfl) <;> simp [Char.isDigit] at h
  simpa [pyWs] using hno

lemma takeWhile_all {p : Char → Bool} :
    ∀ {l : List Char}, (∀ c ∈ l, p c = true) → l.takeWhile p = l := by
  intro l
  induction l with
  | nil => intro _; rfl
  | cons c rest ih =>
    intro h
    rw [List.takeWhile_cons_of_pos (h c (by simp))]
    rw [ih (fun c' hc' => h c' (by simp [hc']))]

lemma dropWhile_all {p : Char → Bool} :
    ∀ {l : List Char}, (∀ c ∈ l, p c = true) → l.dropWhile p = [] := by
  intro l
  induction l with
  | nil => intro _; rfl
  | cons c rest ih =>
    intro h
    rw [List.dropWhile_cons_of_pos (h c (by simp))]
    exact ih (fun c' hc' => h c' (by simp [hc']))

lemma dropWs_of_digits {l : List Char} (h : ∀ c ∈ l, c.isDigit = true) :
    dropWs l = l := by
  unfold dropWs
  cases l with
  | nil => rfl
  | cons c rest =>
    rw [List.dropWhile_cons_of_neg]
    simp only [digit_not_pyWs (h c (by simp))]
    simp

/-- C10: the label `f"time +={w}"` written by `accumulate_time_edges`
for an accumulated edge of weight `w` is itself recognized by the
time-advance recognizer `_is_time` with exactly the weight `w`, so the
output of one accumulation pass is valid input for a second pass. -/
theorem time_label_roundtrip :
    ∀ w : Nat, is_time ("time +=" ++ natDecimal w) = some w := by
  intro w
  rcases natDecimal_toList_spec w with ⟨hne, hdig, hval⟩
  unfold is_time
  have hcat : ("time +=" ++ natDecimal w).toList =
      't' :: 'i' :: 'm' :: 'e' :: ' ' :: '+' :: '=' :: (natDecimal w).toList := by
    show ("time +=" ++ natDecimal w).data = _
    rw [String.data_append]
    rfl
  rw [hcat]
  have h1 : dropWs ('t' :: 'i' :: 'm' :: 'e' :: ' ' :: '+' :: '=' ::
      (natDecimal w).toList) =
      't' :: 'i' :: 'm' :: 'e' :: ' ' :: '+' :: '=' :: (natDecimal w).toList := by
    unfold dropWs
    rw [List.dropWhile_cons_of_neg (by decide)]
  have h2 : dropWs (' ' :: '+' :: '=' :: (natDecimal w).toList) =
      '+' :: '=' :: (natDecimal w).toList := by
    unfold dropWs
    rw [List.dropWhile_cons_of_pos (by decide),
      List.dropWhile_cons_of_neg (by decide)]
  unfold is_time_chars
  rw [h1]
  have hw : stripTimeWord ('t' :: 'i' :: 'm' :: 'e' :: ' ' :: '+' :: '=' ::
      (natDecimal w).toList) = some (' ' :: '+' :: '=' :: (natDecimal w).toList) := by
    simp only [stripTimeWord]
    rw [if_pos (by decide)]
  rw [hw, Option.some_bind, h2]
  have hpe : stripPlusEq ('+' :: '=' :: (natDecimal w).toList) =
      some ((natDecimal w).toList) := rfl
  rw [hpe, Option.some_bind]
  unfold readWeight
  rw [dropWs_of_digits hdig, takeWhile_all hdig]
  rw [if_neg (by simpa [List.isEmpty_iff] using hne)]
  rw [dropWhile_all hdig]
  rw [if_pos (by decide)]
  rw [hval]

end ClaimTen

/-! ### The `.aut` parser (`parse_aut` and `_try_int_or_str`,
`time_accumulator.py` lines 17-74)

The parser is modelled at line granularity: `text.splitlines()` is
taken as the input line list (the lines therefore contain no newline
characters).  Whitespace, digits and quote handling are ASCII, matching
the `pyWs` convention used above. -/

section ParserModel

/-- Python `token.strip()` on ASCII whitespace (both ends). -/
def pyStrip (s : String) : String :=
  String.mk (((s.toList.dropWhile (fun c => pyWs c)).reverse.dropWhile
    (fun c => pyWs c)).reverse)

/-- Whether a character list starts with the character `c`. -/
def headIs (cs : List Char) (c : Char) : Bool :=
  match cs with
  | [] => false
  | c0 :: _ => c0 = c

/-- Whether a character list ends with the character `c`. -/
def lastIs (cs : List Char) (c : Char) : Bool :=
  match cs.getLast? with
  | none => false
  | some c0 => c0 = c

/-- Python `s.startswith(c)` for a one-character needle (the `"("` and
`"#"` tests of `parse_aut`). -/
def startsWithChar (s : String) (c : Char) : Bool :=
  headIs s.toList c

/-- Split a character list at the first occurrence of `stop`: the part
before it and the remainder beginning at `stop` (the `[^,]+` / `[^)]+`
regex segments all end at the first such stop character). -/
def spanUntil (stop : Char) (cs : List Char) : List Char × List Char :=
  (cs.takeWhile (fun c => c ≠ stop), cs.dropWhile (fun c => c ≠ stop))

/-- Tail of a decimal literal after its first digit: digits with single
underscores allowed between digits (the grammar accepted by Python
`int`, ASCII digits). -/
def digitsTail : List Char → Bool
  | [] => true
  | c :: rest =>
    if c = '_' then
      match rest with
      | [] => false
      | d :: rest2 => d.isDigit && digitsTail rest2
    else c.isDigit && digitsTail rest

/-- Digit run of `int(token)` after the optional sign: at least one
digit, single underscores between digits; underscores are dropped
before reading the value. -/
def pyIntDigits (neg : Bool) (ds : List Char) : Option Int :=
  match ds with
  | [] => none
  | c :: rest =>
    if c.isDigit && digitsTail rest then
      some (if neg then
        -(Int.ofNat (digitsToNat ((c :: rest).filter (fun x => x ≠ '_'))))
      else Int.ofNat (digitsToNat ((c :: rest).filter (fun x => x ≠ '_'))))
    else none

/-- Python `int(token)` in base 10 (ASCII): surrounding whitespace is
stripped, one optional sign, then the digit run; `none` models the
`ValueError`. -/
def pyIntParse (s : String) : Option Int :=
  match (pyStrip s).toList with
  | '+' :: ds => pyIntDigits false ds
  | '-' :: ds => pyIntDigits true ds
  | ds => pyIntDigits false ds

/-- Python `str(n)` for an `int` value. -/
def intToString (n : Int) : String :=
  if n < 0 then "-" ++ natDecimal n.natAbs else natDecimal n.toNat

/-- One `str.replace` pass for a two-character pattern `[a, b]`
replaced by the single character `c`, left to right, non-overlapping. -/
def replace2 (a b c : Char) : List Char → List Char
  | x :: y :: rest =>
    if x = a ∧ y = b then c :: replace2 a b c rest
    else x :: replace2 a b c (y :: rest)
  | xs => xs

/-- Embedding of `_try_int_or_str` (lines 17-26): strip the token;
a token fully enclosed in double or single quotes is unquoted with the
three sequential escape-pair replacements of the source; otherwise an
integer literal is normalised through `str(int(token))`; otherwise the
stripped token is kept. -/
def try_int_or_str (token : String) : String :=
  if (headIs (pyStrip token).toList '"' && lastIs (pyStrip token).toList '"')
      || (headIs (pyStrip token).toList (Char.ofNat 39)
          && lastIs (pyStrip token).toList (Char.ofNat 39)) then
    String.mk (replace2 '\\' (Char.ofNat 39) (Char.ofNat 39)
      (replace2 '\\' '"' '"' (replace2 '\\' '\\' '\\'
        (((pyStrip token).toList.drop 1).dropLast))))
  else
    match pyIntParse (pyStrip token) with
    | some n => intToString n
    | none => pyStrip token

/-- Single-character escapes of the `unicode_escape` codec. -/
def escChar (c : Char) : Option Char :=
  if c = 'n' then some '\n'
  else if c = 't' then some '\t'
  else if c = 'r' then some '\r'
  else if c = '\\' then some '\\'
  else if c = '"' then some '"'
  else if c = Char.ofNat 39 then some (Char.ofNat 39)
  else if c = 'a' then some (Char.ofNat 7)
  else if c = 'b' then some (Char.ofNat 8)
  else if c = 'f' then some (Char.ofNat 12)
  else if c = 'v' then some (Char.ofNat 11)
  else if c = '0' then some (Char.ofNat 0)
  else none

/-- Decoder for the modelled fragment of `unicode_escape`: ASCII
characters and the common single-character escapes.  Anything beyond
the fragment (octal, `\x`/`\u` escapes, unknown escapes, non-ASCII
bytes) yields `none` and the caller keeps the raw label, standing in
for the `except: pass` fallback of lines 54-57; labels in the theorems
below stay inside the fragment. -/
def unescapeChars : List Char → Option (List Char)
  | [] => some []
  | '\\' :: c :: rest =>
    (escChar c).bind (fun d => (unescapeChars rest).map (fun l => d :: l))
  | c :: rest =>
    if c = '\\' || 127 < c.toNat then none
    else (unescapeChars rest).map (fun l => c :: l)

/-- `label.encode("utf-8").decode("unicode_escape")` with the
`except: pass` fallback, on the modelled fragment. -/
def pyUnicodeEscape (s : String) : String :=
  (unescapeChars s.toList).elim s (fun l => String.mk l)

/-- The `\s*\.?\s*$` tail of `header_re`. -/
def hdrTail (cs : List Char) : Bool :=
  match dropWs cs with
  | [] => true
  | '.' :: r => (dropWs r).isEmpty
  | _ => false

/-- The `\s*;?\s*\.?\s*$` tail of `quoted_re` and `plain_re`. -/
def tailSem (cs : List Char) : Bool :=
  match dropWs cs with
  | ';' :: r => hdrTail r
  | r => hdrTail r

/-- Body of `header_re` after `des\s*`:
`\(\s*([^,]+)\s*,\s*([^,]+)\s*,\s*([^)]+)\s*\)\s*\.?\s*$`.  The groups
keep their surrounding whitespace here; every consumer strips. -/
def matchHeaderBody (cs : List Char) : Option (String × String × String) :=
  match cs with
  | '(' :: r1 =>
    match spanUntil ',' r1 with
    | (seg1, ',' :: r2) =>
      if seg1.isEmpty then none
      else
        match spanUntil ',' r2 with
        | (seg2, ',' :: r3) =>
          if seg2.isEmpty then none
          else
            match spanUntil ')' r3 with
            | (seg3, ')' :: r4) =>
              if seg3.isEmpty then none
              else if hdrTail r4 then
                some (String.mk seg1, String.mk seg2, String.mk seg3)
              else none
            | _ => none
        | _ => none
    | _ => none
  | _ => none

/-- Embedding of `header_re.match` (`re.IGNORECASE`): the word `des`
case-insensitively, optional whitespace, then the parenthesised
triple. -/
def matchHeaderChars : List Char → Option (String × String × String)
  | d :: e :: w :: rest =>
    if d.toLower = 'd' ∧ e.toLower = 'e' ∧ w.toLower = 's' then
      matchHeaderBody (dropWs rest)
    else none
  | _ => none

/-- `header_re.match` on a line. -/
def matchHeader (ln : String) : Option (String × String × String) :=
  matchHeaderChars ln.toList

/-- Scan of the quoted-label group `((?:[^"\\]|\\.)*)"`: the raw label
characters (escape pairs kept verbatim) and the remainder after the
closing quote. -/
def scanLabel : List Char → Option (List Char × List Char)
  | [] => none
  | '"' :: rest => some ([], rest)
  | '\\' :: c :: rest =>
    (scanLabel rest).map (fun p => ('\\' :: c :: p.1, p.2))
  | c :: rest =>
    if c = '\\' then none
    else (scanLabel rest).map (fun p => (c :: p.1, p.2))

/-- Embedding of `quoted_re.match`:
`^\(\s*([^,]+?)\s*,\s*"((?:[^"\\]|\\.)*)"\s*,\s*([^)]+?)\s*\)\s*;?\s*\.?\s*$`. -/
def matchQuotedChars : List Char → Option (String × String × String)
  | '(' :: r1 =>
    match spanUntil ',' r1 with
    | (seg1, ',' :: r2) =>
      if seg1.isEmpty then none
      else
        match dropWs r2 with
        | '"' :: r3 =>
          match scanLabel r3 with
          | some (lab, r4) =>
            match dropWs r4 with
            | ',' :: r5 =>
              match spanUntil ')' r5 with
              | (seg3, ')' :: r6) =>
                if seg3.isEmpty then none
                else if tailSem r6 then
                  some (String.mk seg1, String.mk lab, String.mk seg3)
                else none
              | _ => none
            | _ => none
          | none => none
        | _ => none
    | _ => none
  | _ => none

/-- `quoted_re.match` on a line. -/
def matchQuoted (ln : String) : Option (String × String × String) :=
  matchQuotedChars ln.toList

/-- Embedding of `plain_re.match`:
`^\(\s*([^,]+?)\s*,\s*([^,"]+?)\s*,\s*([^)]+?)\s*\)\s*;?\s*\.?\s*$`. -/
def matchPlainChars : List Char → Option (String × String × String)
  | '(' :: r1 =>
    match spanUntil ',' r1 with
    | (seg1, ',' :: r2) =>
      if seg1.isEmpty then none
      else
        match spanUntil ',' r2 with
        | (seg2, ',' :: r3) =>
          if seg2.isEmpty || seg2.contains '"' then none
          else
            match spanUntil ')' r3 with
            | (seg3, ')' :: r4) =>
              if seg3.isEmpty then none
              else if tailSem r4 then
                some (String.mk seg1, String.mk seg2, String.mk seg3)
              else none
            | _ => none
        | _ => none
    | _ => none
  | _ => none

/-- `plain_re.match` on a line. -/
def matchPlain (ln : String) : Option (String × String × String) :=
  matchPlainChars ln.toList

/-- The parser result: `AutLTS` with the two `header_counts` entries as
optional fields and the state set as a first-seen-ordered list (Python
uses an unordered `set`; only membership matters). -/
structure ParsedAut where
  initial : Option String
  transitions : List Tr
  state_set : List String
  header_transitions : Option Int
  header_states : Option Int
deriving DecidableEq

/-- The fresh `AutLTS()` of line 32. -/
def emptyParsed : ParsedAut := ⟨none, [], [], none, none⟩

/-- `lts.transitions.append((src, lab, dst))` and
`lts.state_set.update([src, dst])`. -/
def addTrans (lts : ParsedAut) (src lab dst : String) : ParsedAut :=
  { lts with transitions := lts.transitions ++ [(src, lab, dst)],
             state_set := addSet (addSet lts.state_set src) dst }

/-- One iteration of the transition loop (lines 49-69): quoted form
first (label escape-decoded), then plain form (label stripped), then a
`ValueError` on an unmatched line starting with `(`, and a silent skip
on anything else. -/
def parseLine (lts : ParsedAut) (ln : String) : Except String ParsedAut :=
  (matchQuoted ln).elim
    ((matchPlain ln).elim
      (if startsWithChar ln '(' then
        Except.error ("ValueError: Unrecognized transition syntax: " ++ ln)
      else Except.ok lts)
      (fun g => Except.ok (addTrans lts (try_int_or_str g.1)
        (pyStrip g.2.1) (try_int_or_str g.2.2))))
    (fun g => Except.ok (addTrans lts (try_int_or_str g.1)
      (pyUnicodeEscape g.2.1) (try_int_or_str g.2.2)))

/-- Effect of a matched header (lines 37-44): `initial` from group 1
through `_try_int_or_str` (and added to the state set), the two counts
through `int` with conversion errors dropped. -/
def applyHeader (g : String × String × String) : ParsedAut :=
  { initial := some (try_int_or_str g.1),
    transitions := [],
    state_set := addSet [] (try_int_or_str g.1),
    header_transitions := pyIntParse g.2.1,
    header_states := pyIntParse g.2.2 }

/-- `transitions[0][0] if transitions else "0"` (line 72). -/
def headSrc : List Tr → String
  | [] => "0"
  | t :: _ => t.1

/-- Lines 72-73: set the defaulted `initial` and add it to the state
set. -/
def defaultInitial (lts : ParsedAut) : ParsedAut :=
  { lts with initial := some (headSrc lts.transitions),
             state_set := addSet lts.state_set (headSrc lts.transitions) }

/-- Lines 71-73: default `initial` when no header set it. -/
def finishParse (lts : ParsedAut) : ParsedAut :=
  (lts.initial).elim (defaultInitial lts) (fun _ => lts)

/-- Line 29: strip every line, drop blank lines and `#` comments. -/
def cleanLines (raw : List String) : List String :=
  (raw.map pyStrip).filter
    (fun l => decide (l ≠ "") && ! startsWithChar l '#')

/-- `parse_aut` on the cleaned lines: empty input raises `ValueError`,
an optional header is read from the first line, every remaining line
goes through the transition loop, and a missing `initial` is
defaulted at the end. -/
def parseClean : List String → Except String ParsedAut
  | [] => Except.error "ValueError: Empty .aut content"
  | first :: rest =>
    (matchHeader first).elim
      (Except.map finishParse ((first :: rest).foldlM parseLine emptyParsed))
      (fun g => Except.map finishParse (rest.foldlM parseLine (applyHeader g)))

/-- Embedding of `parse_aut` at line granularity. -/
def parse_aut_lines (raw : List String) : Except String ParsedAut :=
  parseClean (cleanLines raw)

end ParserModel

section ParserLemmas

lemma except_map_error {α β : Type} (f : α → β) (e : String) :
    Except.map f (Except.error e : Except String α) = Except.error e := rfl

lemma except_map_ok {α β : Type} (f : α → β) (a : α) :
    Except.map f (Except.ok a : Except String α) = Except.ok (f a) := rfl

/-- A line starting with `(` can never match the header pattern, whose
first character is `d` or `D`. -/
lemma paren_not_header (ln : String) (h : startsWithChar ln '(' = true) :
    matchHeader ln = none := by
  unfold matchHeader
  unfold startsWithChar headIs at h
  cases hl : ln.toList with
  | nil =>
    rw [hl] at h
    exact absurd h Bool.false_ne_true
  | cons c rest =>
    rw [hl] at h
    have hc : c = '(' := of_decide_eq_true h
    subst hc
    cases rest with
    | nil => rfl
    | cons c2 rest2 =>
      cases rest2 with
      | nil => rfl
      | cons c3 rest3 =>
        simp only [matchHeaderChars]
        rw [if_neg (fun hcon => absurd hcon.1 (by decide))]

/-- A line matching neither transition pattern and not starting with
`(` is silently skipped by the loop body. -/
lemma parseLine_skip (ln : String) (hq : matchQuoted ln = none)
    (hp : matchPlain ln = none) (hs : startsWithChar ln '(' = false) :
    ∀ lts, parseLine lts ln = Except.ok lts := by
  intro lts
  unfold parseLine
  rw [hq, Option.elim_none, hp, Option.elim_none,
    if_neg (fun hc => Bool.false_ne_true (hs ▸ hc))]

/-- A line starting with `(` that matches neither transition pattern
makes the loop body raise `ValueError`, whatever the state so far. -/
lemma parseLine_error (ln : String) (hs : startsWithChar ln '(' = true)
    (hq : matchQuoted ln = none) (hp : matchPlain ln = none) :
    ∀ lts, parseLine lts ln =
      Except.error ("ValueError: Unrecognized transition syntax: " ++ ln) := by
  intro lts
  unfold parseLine
  rw [hq, Option.elim_none, hp, Option.elim_none, if_pos hs]

/-- The loop body never touches `initial`. -/
lemma parseLine_initial (b : ParsedAut) (a : String) (b2 : ParsedAut)
    (h : parseLine b a = Except.ok b2) : b2.initial = b.initial := by
  unfold parseLine at h
  cases hq : matchQuoted a with
  | some g =>
    rw [hq, Option.elim_some] at h
    cases h
    rfl
  | none =>
    rw [hq, Option.elim_none] at h
    cases hp : matchPlain a with
    | some g =>
      rw [hp, Option.elim_some] at h
      cases h
      rfl
    | none =>
      rw [hp, Option.elim_none] at h
      by_cases hs : startsWithChar a '(' = true
      · rw [if_pos hs] at h
        cases h
      · rw [if_neg hs] at h
        cases h
        rfl

/-- A fold over `Except` that reaches an element whose step always
errors ends in an error. -/
lemma foldlM_hits_error {α β : Type} (f : β → α → Except String β) (x : α)
    (hx : ∀ b, ∃ e, f b x = Except.error e) :
    ∀ (l1 l2 : List α) (b : β),
      ∃ e, (l1 ++ x :: l2).foldlM f b = Except.error e := by
  intro l1
  induction l1 with
  | nil =>
    intro l2 b
    obtain ⟨e, he⟩ := hx b
    exact ⟨e, by rw [List.nil_append, List.foldlM_cons, he, except_error_bind]⟩
  | cons a l1 ih =>
    intro l2 b
    rw [List.cons_append, List.foldlM_cons]
    cases hfa : f b a with
    | error e2 => exact ⟨e2, by rw [except_error_bind]⟩
    | ok b2 =>
      obtain ⟨e, he⟩ := ih l2 b2
      exact ⟨e, by rw [except_ok_bind]; exact he⟩

/-- A fold over `Except` is unchanged by removing an element whose step
is the identity. -/
lemma foldlM_skips {α β : Type} (f : β → α → Except String β) (x : α)
    (hx : ∀ b, f b x = Except.ok b) :
    ∀ (l1 l2 : List α) (b : β),
      (l1 ++ x :: l2).foldlM f b = (l1 ++ l2).foldlM f b := by
  intro l1
  induction l1 with
  | nil =>
    intro l2 b
    rw [List.nil_append, List.nil_append, List.foldlM_cons, hx, except_ok_bind]
  | cons a l1 ih =>
    intro l2 b
    rw [List.cons_append, List.cons_append, List.foldlM_cons, List.foldlM_cons]
    cases hfa : f b a with
    | error e => rw [except_error_bind, except_error_bind]
    | ok b2 => rw [except_ok_bind, except_ok_bind, ih l2 b2]

end ParserLemmas

section ClaimNine

/-- The counterexample input: a header, a malformed line that does not
start with `(`, and one plain transition. -/
def junkAut : List String :=
  ["des (0, 1, 2)", "this is not a transition", "(0, a, 1)"]

/-- C9 counterexample: the middle line of `junkAut` survives the
blank/comment filter, is not a header and matches neither transition
pattern — it is malformed — yet `parse_aut` does not raise: it silently
skips the line (only unmatched lines starting with `(` raise) and
returns the parsed LTS of the remaining lines. -/
theorem parse_aut_skips_malformed_line :
    cleanLines junkAut =
      ["des (0, 1, 2)", "this is not a transition", "(0, a, 1)"] ∧
    matchHeader "this is not a transition" = none ∧
    matchQuoted "this is not a transition" = none ∧
    matchPlain "this is not a transition" = none ∧
    parse_aut_lines junkAut =
      Except.ok ⟨some "0", [("0", "a", "1")], ["0", "1"], some 1, some 2⟩ := by
  refine ⟨by decide, by decide, by decide, by decide, by decide⟩

/-- C9 (amended): (1) a cleaned line that starts with `(` and matches
neither transition pattern makes the parse raise `ValueError`, wherever
it occurs; (2) a cleaned non-head line that matches neither pattern and
does not start with `(` is silently skipped — removing it leaves the
parse result unchanged; (3) when the first cleaned line is not a
header, a successful parse defaults the initial state to the source of
the first parsed transition, or to `"0"` when there is none. -/
theorem parse_aut_error_and_default :
    (∀ (ls1 ls2 : List String) (ln : String),
      startsWithChar ln '(' = true →
      matchQuoted ln = none →
      matchPlain ln = none →
      ∃ e, parseClean (ls1 ++ ln :: ls2) = Except.error e) ∧
    (∀ (l0 : String) (ls1 ls2 : List String) (ln : String),
      matchQuoted ln = none →
      matchPlain ln = none →
      startsWithChar ln '(' = false →
      parseClean (l0 :: (ls1 ++ ln :: ls2)) =
        parseClean (l0 :: (ls1 ++ ls2))) ∧
    (∀ (l0 : String) (ls : List String),
      matchHeader l0 = none →
      ∀ lts, parseClean (l0 :: ls) = Except.ok lts →
        lts.initial = some (headSrc lts.transitions)) := by
  refine ⟨?_, ?_, ?_⟩
  · intro ls1 ls2 ln hs hq hp
    have herr : ∀ b, ∃ e, parseLine b ln = Except.error e :=
      fun b => ⟨_, parseLine_error ln hs hq hp b⟩
    cases ls1 with
    | nil =>
      simp only [List.nil_append, parseClean]
      rw [paren_not_header ln hs, Option.elim_none]
      obtain ⟨e, he⟩ := foldlM_hits_error parseLine ln herr [] ls2 emptyParsed
      rw [List.nil_append] at he
      exact ⟨e, by rw [he, except_map_error]⟩
    | cons l0 ls1 =>
      simp only [List.cons_append, parseClean]
      cases hh : matchHeader l0 with
      | none =>
        rw [Option.elim_none]
        obtain ⟨e, he⟩ :=
          foldlM_hits_error parseLine ln herr (l0 :: ls1) ls2 emptyParsed
        rw [List.cons_append] at he
        exact ⟨e, by rw [he, except_map_error]⟩
      | some g =>
        rw [Option.elim_some]
        obtain ⟨e, he⟩ :=
          foldlM_hits_error parseLine ln herr ls1 ls2 (applyHeader g)
        exact ⟨e, by rw [he, except_map_error]⟩
  · intro l0 ls1 ls2 ln hq hp hs
    have hskip : ∀ b, parseLine b ln = Except.ok b :=
      parseLine_skip ln hq hp hs
    simp only [parseClean]
    cases hh : matchHeader l0 with
    | none =>
      rw [Option.elim_none, Option.elim_none]
      have hfold := foldlM_skips parseLine ln hskip (l0 :: ls1) ls2 emptyParsed
      rw [List.cons_append, List.cons_append] at hfold
      rw [hfold]
    | some g =>
      rw [Option.elim_some, Option.elim_some,
        foldlM_skips parseLine ln hskip ls1 ls2 (applyHeader g)]
  · intro l0 ls hh lts hok
    simp only [parseClean] at hok
    rw [hh, Option.elim_none] at hok
    cases hfold : (l0 :: ls).foldlM parseLine emptyParsed with
    | error e =>
      rw [hfold, except_map_error] at hok
      cases hok
    | ok lts0 =>
      rw [hfold, except_map_ok] at hok
      have hini : lts0.initial = none := by
        refine foldlM_except_invariant parseLine
          (fun b => b.initial = none) (l0 :: ls) ?_ emptyParsed lts0 rfl hfold
        intro b a _ hb b2 hstep
        exact (parseLine_initial b a b2 hstep).trans hb
      cases hok
      unfold finishParse
      rw [hini, Option.elim_none]
      rfl

/-- Witness for `parse_aut_error_and_default`: a lone malformed `(`
line errors; dropping the middle junk line of a three-line input does
not change the parse; the headerless one-transition parse yields the
transition source as initial state. -/
theorem parse_aut_error_and_default_witness :
    (∃ e, parseClean ["(junk"] = Except.error e) ∧
    parseClean ["des (0, 1, 2)", "junk", "(0, a, 1)"] =
      parseClean ["des (0, 1, 2)", "(0, a, 1)"] ∧
    (ParsedAut.mk (some "1") [("1", "x", "2")] ["1", "2"] none none).initial =
      some (headSrc [("1", "x", "2")]) :=
  ⟨parse_aut_error_and_default.1 [] [] "(junk"
      (by decide) (by decide) (by decide),
   parse_aut_error_and_default.2.1 "des (0, 1, 2)" [] ["(0, a, 1)"] "junk"
      (by decide) (by decide) (by decide),
   parse_aut_error_and_default.2.2 "(1,x,2)" [] (by decide)
      (ParsedAut.mk (some "1") [("1", "x", "2")] ["1", "2"] none none)
      (by decide)⟩

end ClaimNine

end Tinification
